import Mathlib

/-!
Analyzers of k8sgpt: HorizontalPodAutoscaler and Gatekeeper constraints.

Shallow embedding of `pkg/analyzer/hpa.go` and `pkg/analyzer/gatekeeperconstraint.go`.

* Go maps (`map[string]common.PreAnalysis`) are association lists with unique keys;
  `m[k] = v` replaces the value of an existing key and appends a new key otherwise.
  The order of a `range` over a map is unspecified in Go, so it is a parameter
  (`RangeOrder`) of both analyzers, and every statement holds for every order.
* The metrics sink, the fetch call and the ownership resolver of the autoscaler analyzer are
  recorded in an explicit trace of `Event`s.
* Dynamic documents (`unstructured.Unstructured`) are JSON trees. The round trip
  `json.Marshal` / `json.Unmarshal` into `Status` follows `encoding/json`: the entries of a
  map are written sorted by key and read back one by one; a key is taken for a struct field
  when it equals the field name up to case folding; a value that does not fit its target is
  skipped and decoding goes on; a list is decoded into the elements that the slice already
  has, without clearing them.
* `getConstraint` stores `&item`, the address of its loop variable. What the pointers refer
  to depends on the Go language version, so the allocation of the loop variable is a
  parameter (`LoopVarSemantics`) and pointers are indices into an explicit heap.
* The outcome of `InitializeClients` is an input of `ConstraintAnalyzer.Analyze`.
-/

namespace K8sgpt

/-! ## `pkg/common` types used by the analyzers -/

/-- The `common.Sensitive` record. -/
structure Sensitive where
  Unmasked : String
  Masked : String
deriving DecidableEq, Repr

/-- The `common.Failure` record: one finding. -/
structure Failure where
  Text : String
  Sensitive : List K8sgpt.Sensitive
deriving DecidableEq, Repr

/-- The fields of `common.Result` that the two analyzers fill in. -/
structure Result where
  Kind : String
  Name : String
  Error : List Failure
  ParentObject : String
deriving DecidableEq, Repr

/-! ## Typed objects: `autoscalingv2.HorizontalPodAutoscaler` -/

/-- One `metav1.OwnerReference`. -/
structure OwnerReference where
  Kind : String
  Name : String
deriving DecidableEq, Repr

/-- The `metav1.ObjectMeta` of a typed object. -/
structure ObjectMeta where
  Name : String
  Namespace : String
  OwnerReferences : List OwnerReference
deriving DecidableEq, Repr

/-- One `HorizontalPodAutoscalerCondition`; `Status` is a `corev1.ConditionStatus` string. -/
structure HorizontalPodAutoscalerCondition where
  CondType : String
  Status : String
  Reason : String
  Message : String
deriving DecidableEq, Repr

/-- The `HorizontalPodAutoscalerStatus`, reduced to the field the analyzer reads. -/
structure HorizontalPodAutoscalerStatus where
  Conditions : List HorizontalPodAutoscalerCondition
deriving DecidableEq, Repr

/-- A horizontal pod autoscaler object as listed by the typed client. -/
structure HorizontalPodAutoscaler where
  ObjectMeta : K8sgpt.ObjectMeta
  Status : HorizontalPodAutoscalerStatus
deriving DecidableEq, Repr

/-- The `common.PreAnalysis` bucket: the fields written by the two analyzers. The constraint
analyzer leaves `HorizontalPodAutoscalers` at its zero value. -/
structure PreAnalysis where
  HorizontalPodAutoscalers : HorizontalPodAutoscaler
  FailureDetails : List Failure
deriving DecidableEq, Repr

/-- The zero value of `HorizontalPodAutoscaler`. -/
def zeroHpa : HorizontalPodAutoscaler := ⟨⟨"", "", []⟩, ⟨[]⟩⟩

/-! ## Go maps and `range` order -/

/-- A Go `map[string]V`: association list, keys unique, in order of first insertion. -/
abbrev GoMap (V : Type) := List (String × V)

/-- The Go assignment `m[k] = v`. -/
def mapAssign {V : Type} : GoMap V → String → V → GoMap V
  | [], k, v => [(k, v)]
  | (k0, v0) :: rest, k, v =>
    if k0 = k then (k, v) :: rest else (k0, v0) :: mapAssign rest k v

/-- The keys of a Go map. -/
def mapKeys {V : Type} (m : GoMap V) : List String := m.map Prod.fst

/-- A sequence of assignments `m[k] = v`, in order. -/
def mapAssignAll {V : Type} (m : GoMap V) (writes : List (String × V)) : GoMap V :=
  writes.foldl (fun acc w => mapAssign acc w.1 w.2) m

/-- The order in which `for key, value := range preAnalysis` visits the entries of the map:
some rearrangement of the entries, chosen by the Go runtime. -/
structure RangeOrder where
  pick : GoMap PreAnalysis → GoMap PreAnalysis
  perm : ∀ m, (pick m).Perm m

/-- The range order that visits the entries in insertion order. -/
def insertionOrder : RangeOrder := ⟨fun m => m, fun m => List.Perm.refl m⟩

/-- The range order that visits the entries in reverse insertion order. -/
def reverseOrder : RangeOrder := ⟨fun m => m.reverse, fun m => List.reverse_perm m⟩

/-! ## Effects -/

/-- The externally visible calls made by `HpaAnalyzer.Analyze`, in program order. -/
inductive Event where
  /-- The call `AnalyzerErrorsMetric.DeletePartialMatch(labels)`. -/
  | metricDelete (labels : List (String × String))
  /-- The call `HorizontalPodAutoscalers(namespace).List(...)`. -/
  | fetch (ns : String)
  /-- The call `AnalyzerErrorsMetric.WithLabelValues(kind, name, namespace).Set(value)`. -/
  | metricSet (kind name ns : String) (value : Nat)
  /-- The call `util.GetParent(client, meta)`. -/
  | getParent (meta : ObjectMeta)
deriving DecidableEq, Repr

/-- The collaborators reached through `a.Client`: the typed list call and the ownership
resolver `util.GetParent`. -/
structure Client where
  listHpa : String → Except String (List HorizontalPodAutoscaler)
  getParent : ObjectMeta → String × Bool

/-- The fields of `common.Analyzer` read by the analyzers. -/
structure Analyzer where
  Client : K8sgpt.Client
  Namespace : String
  Results : List Result

/-- What a call of `Analyze` returns (`results`, `err`) together with the trace of its
external calls. A Go `nil` slice is the empty list. -/
structure Outcome where
  results : List Result
  err : Option String
  trace : List Event

/-! ## `HpaAnalyzer.Analyze` (hpa.go) -/

/-- The Go call `fmt.Sprintf("%s/%s", x, y)`. -/
def sprintfSlash (x y : String) : String := x ++ "/" ++ y

/-- The kind string of the autoscaler analyzer. -/
def hpaKind : String := "HorizontalPodAutoscaler"

/-- Lines 46-58 of hpa.go: the failures of one object, appended in condition order. -/
def hpaFailures (conditions : List HorizontalPodAutoscalerCondition) : List Failure :=
  conditions.foldl
    (fun failures condition =>
      if condition.Status != "True" then failures ++ [⟨condition.Message, []⟩] else failures)
    []

/-- Lines 45-67 of hpa.go: one iteration of the loop over `list.Items`. -/
def hpaListStep (st : GoMap PreAnalysis × List Event) (hpa : HorizontalPodAutoscaler) :
    GoMap PreAnalysis × List Event :=
  let failures := hpaFailures hpa.Status.Conditions
  if failures.length > 0 then
    (mapAssign st.1 (sprintfSlash hpa.ObjectMeta.Namespace hpa.ObjectMeta.Name) ⟨hpa, failures⟩,
      st.2 ++ [Event.metricSet hpaKind hpa.ObjectMeta.Name hpa.ObjectMeta.Namespace
        failures.length])
  else st

/-- Lines 69-81 of hpa.go: one iteration of the loop over `preAnalysis`. -/
def hpaFlushStep (client : Client) (st : List Result × List Event)
    (entry : String × PreAnalysis) : List Result × List Event :=
  let lookup := client.getParent entry.2.HorizontalPodAutoscalers.ObjectMeta
  let currentAnalysis : Result :=
    ⟨hpaKind, entry.1, entry.2.FailureDetails, if lookup.2 then lookup.1 else ""⟩
  (st.1 ++ [currentAnalysis],
    st.2 ++ [Event.getParent entry.2.HorizontalPodAutoscalers.ObjectMeta])

/-- The method `HpaAnalyzer.Analyze`. -/
def HpaAnalyzer.Analyze (ord : RangeOrder) (a : Analyzer) : Outcome :=
  let cleared := [Event.metricDelete [("analyzer_name", hpaKind)]]
  let fetched := cleared ++ [Event.fetch a.Namespace]
  match a.Client.listHpa a.Namespace with
  | .error err => ⟨[], some err, fetched⟩
  | .ok items =>
    let listed := items.foldl hpaListStep ([], fetched)
    let flushed := (ord.pick listed.1).foldl (hpaFlushStep a.Client) (a.Results, listed.2)
    ⟨flushed.1, none, flushed.2⟩

/-! ## Dynamic documents: `unstructured.Unstructured` -/

/-- A decoded JSON value, as stored in `map[string]interface{}`. Numbers (`int64`, `float64`)
are kept as integers: the analyzer only ever asks whether a value is a string, a list or a
map. -/
inductive JSON where
  | null
  | bool (b : Bool)
  | num (n : Int)
  | str (s : String)
  | arr (items : List JSON)
  | obj (fields : List (String × JSON))

/-- An `unstructured.Unstructured`: its `Object` map (`UnstructuredContent()`). -/
structure Unstructured where
  Object : List (String × JSON)

/-- The zero value of `unstructured.Unstructured`. -/
def zeroUnstructured : Unstructured := ⟨[]⟩

/-- The helper `unstructured.NestedFieldNoCopy`: walk `fields` through nested maps. The Go
function returns `(value, found, err)`; every caller below discards `found` and `err`, so
"not found" and "accessor error" are both `none`. -/
def NestedFieldNoCopy : JSON → List String → Option JSON
  | val, [] => some val
  | JSON.obj m, field :: rest =>
    match m.lookup field with
    | some v => NestedFieldNoCopy v rest
    | none => none
  | _, _ :: _ => none

/-- The helper `unstructured.NestedString` as used by `getNestedString`: the string at the
path, or the empty string when the path is missing or does not hold a string. -/
def getNestedString (obj : List (String × JSON)) (fields : List String) : String :=
  match NestedFieldNoCopy (JSON.obj obj) fields with
  | some (JSON.str s) => s
  | _ => ""

/-- The helper `unstructured.NestedMap` with `found` and `err` discarded: the map at the path,
or a nil map (`none`) when the path is missing or does not hold a map. -/
def NestedMap (obj : List (String × JSON)) (fields : List String) :
    Option (List (String × JSON)) :=
  match NestedFieldNoCopy (JSON.obj obj) fields with
  | some (JSON.obj m) => some m
  | _ => none

/-- The accessor `(*Unstructured).GetKind`. -/
def GetKind (u : Unstructured) : String := getNestedString u.Object ["kind"]

/-- The accessor `(*Unstructured).GetName`. -/
def GetName (u : Unstructured) : String := getNestedString u.Object ["metadata", "name"]

/-! ## gatekeeperconstraint.go: the status shape and its decoding -/

/-- The `Violation` record of gatekeeperconstraint.go. -/
structure Violation where
  Kind : String
  Message : String
deriving DecidableEq, Repr

/-- The `Status` record of gatekeeperconstraint.go. -/
structure Status where
  Violations : List Violation
deriving DecidableEq, Repr

/-- Whether the rune with code `k` of a JSON key matches the lower-case ASCII letter with code
`n` of a field name, the way `encoding/json` compares a key with a field name when no field
has exactly that name: equal up to Unicode simple case folding. For an ASCII letter this means
the letter itself, its upper case, and for `s` also U+017F (long s), for `k` also U+212A
(Kelvin sign). -/
def foldMatchCode (n k : Nat) : Bool :=
  k == n || k + 32 == n || (n == 115 && k == 383) || (n == 107 && k == 8490)

/-- Rune by rune comparison of a field name with a key, both given by their codes. -/
def foldMatchCodes : List Nat → List Nat → Bool
  | [], [] => true
  | n :: ns, k :: ks => foldMatchCode n k && foldMatchCodes ns ks
  | _, _ => false

/-- Whether `encoding/json` stores the value of the JSON key `key` in the struct field tagged
`name`: on an exact match, and otherwise on a match up to case folding. The three field names
of this file are lower-case ASCII words with pairwise different foldings, so the exact match
is a special case of the folded one. -/
def foldMatches (name key : String) : Bool :=
  foldMatchCodes (name.data.map Char.toNat) (key.data.map Char.toNat)

/-- The byte order of UTF-8 strings, which is the order of their code points. -/
def codesLe : List Char → List Char → Bool
  | [], _ => true
  | _ :: _, [] => false
  | a :: as, b :: bs =>
    if a.toNat < b.toNat then true
    else if b.toNat < a.toNat then false
    else codesLe as bs

/-- The entries of a Go map, one per key: of several entries of the association list with one
key the first is the value of the map (as for `List.lookup`). -/
def mapEntries : List (String × JSON) → List (String × JSON)
  | [] => []
  | (k, v) :: rest => (k, v) :: (mapEntries rest).filter (fun e => e.1 != k)

/-- Insertion of one entry into a list of entries sorted by key. -/
def insertEntry (e : String × JSON) : List (String × JSON) → List (String × JSON)
  | [] => [e]
  | x :: rest => if codesLe e.1.data x.1.data then e :: x :: rest else x :: insertEntry e rest

/-- The order in which `json.Marshal` writes the entries of a map, and so the order in which
`json.Unmarshal` reads them back: sorted by key. -/
def marshalOrder (fields : List (String × JSON)) : List (String × JSON) :=
  (mapEntries fields).foldr insertEntry []

/-- Decoding a JSON value into a Go `string` field that currently holds `current`
(`encoding/json`): a string is stored; `null` leaves the field alone; any other value is a
type mismatch, which `Unmarshal` records and skips, leaving the field alone. -/
def decodeStringField (current : String) : JSON → String
  | JSON.str s => s
  | _ => current

/-- The zero value of `Violation`. -/
def zeroViolation : Violation := ⟨"", ""⟩

/-- Decoding one entry of a JSON object into a `Violation`: the value goes to the field that
the key matches, if any. -/
def decodeViolationEntry (current : Violation) (entry : String × JSON) : Violation :=
  if foldMatches "kind" entry.1 then ⟨decodeStringField current.Kind entry.2, current.Message⟩
  else if foldMatches "message" entry.1 then
    ⟨current.Kind, decodeStringField current.Message entry.2⟩
  else current

/-- Decoding one JSON array element into the slice element `current`: the entries of a map are
decoded one after the other, in the order in which they were marshalled; `null` and every
mismatching value leave the element as it is. -/
def decodeViolation (current : Violation) : JSON → Violation
  | JSON.obj fields => (marshalOrder fields).foldl decodeViolationEntry current
  | _ => current

/-- Decoding the elements of a JSON array into the elements of a slice with the given backing
array: `encoding/json` decodes element `i` into the slice element `i` without clearing it
first, so an element filled by an earlier decoding keeps the fields that the new JSON element
does not set; elements past the backing array start from the zero value. The result is the
new backing array, whose part past the JSON array is left as it was. -/
def decodeElements : List Violation → List JSON → List Violation
  | backing, [] => backing
  | [], e :: es => decodeViolation zeroViolation e :: decodeElements [] es
  | b :: bs, e :: es => decodeViolation b e :: decodeElements bs es

/-- A Go slice `[]Violation`: its backing array and its length. -/
structure ViolationSlice where
  backing : List Violation
  len : Nat
deriving DecidableEq, Repr

/-- The elements of a slice. -/
def ViolationSlice.elems (s : ViolationSlice) : List Violation := s.backing.take s.len

/-- Decoding a JSON value into the slice `Violations []Violation`: a non-empty array is
decoded element by element into the existing slice, whose length becomes that of the array;
an empty array gives a fresh empty slice and `null` the nil slice; every other value is a
type mismatch and leaves the slice as it is. -/
def decodeViolations (current : ViolationSlice) : JSON → ViolationSlice
  | JSON.arr [] => ⟨[], 0⟩
  | JSON.arr (e :: es) => ⟨decodeElements current.backing (e :: es), (e :: es).length⟩
  | JSON.null => ⟨[], 0⟩
  | _ => current

/-- Decoding one entry of the status object into the `Violations` field of `Status`. -/
def decodeStatusEntry (current : ViolationSlice) (entry : String × JSON) : ViolationSlice :=
  if foldMatches "violations" entry.1 then decodeViolations current entry.2 else current

/-- Lines 108-110 of gatekeeperconstraint.go: `json.Marshal(objStatus)` followed by
`json.Unmarshal(tempJSON, &tempStatus)` with both errors discarded. A nil map marshals to
`null`, which leaves `tempStatus` at its zero value. A map is written with its keys sorted
and read back entry by entry into the nil slice. -/
def decodeStatus : Option (List (String × JSON)) → Status
  | none => ⟨[]⟩
  | some fields => ⟨((marshalOrder fields).foldl decodeStatusEntry ⟨[], 0⟩).elems⟩

/-! ## gatekeeperconstraint.go: listing through the dynamic client -/

/-- What `ResourceClient.List` can answer. -/
inductive ListOutcome where
  /-- The call succeeds with `Resources.Items`. -/
  | items (list : List Unstructured)
  /-- The call fails with an error for which `errors.IsNotFound` holds. -/
  | notFound
  /-- The call fails with any other error, whose text is `msg`. -/
  | failure (msg : String)

/-- The `dynamic.Interface`: the answer of `Resource(gvr).List` per group, version and
resource. -/
structure DynamicClient where
  list : String → String → String → ListOutcome

/-- How a Go `for _, item := range` loop allocates its variable: one variable for the whole
loop (language versions before 1.22) or a fresh variable per iteration (1.22 and later). -/
inductive LoopVarSemantics where
  | perLoop
  | perIteration
deriving DecidableEq, Repr

/-- Memory cells holding `unstructured.Unstructured` values; a pointer is a cell index. -/
abbrev Heap := List Unstructured

/-- Reading through a pointer. -/
def deref (heap : Heap) (p : Nat) : Unstructured := heap.getD p zeroUnstructured

/-- What `getConstraint` returns: the pointers `releases`, the cells they point into, the
error, and the lines written to the logger. -/
structure ConstraintList where
  heap : Heap
  releases : List Nat
  err : Option String
  logs : List String

/-- Lines 61-64 of gatekeeperconstraint.go: `releases = append(releases, &item)` for each
listed item. `&item` is the address of the loop variable. -/
def getConstraintLoop (sem : LoopVarSemantics) (items : List Unstructured) : Heap × List Nat :=
  match sem with
  | LoopVarSemantics.perLoop =>
    items.foldl (fun st item => (st.1.set 0 item, st.2 ++ [0])) ([zeroUnstructured], [])
  | LoopVarSemantics.perIteration =>
    items.foldl (fun st item => (st.1 ++ [item], st.2 ++ [st.1.length])) ([], [])

/-- The method `MachineReconciler.getConstraint`. -/
def getConstraint (sem : LoopVarSemantics) (m : DynamicClient)
    (group version resource : String) : ConstraintList :=
  match m.list group version resource with
  | ListOutcome.notFound => ⟨[], [], none, []⟩
  | ListOutcome.failure msg =>
    ⟨[], [], some msg, ["Error listing " ++ resource ++ " Resources: " ++ msg ++ "\n"]⟩
  | ListOutcome.items list =>
    let looped := getConstraintLoop sem list
    ⟨looped.1, looped.2, none, []⟩

/-- What `getConstraintTemplateNameList` returns: names, error, logger lines. -/
structure NameList where
  names : List String
  err : Option String
  logs : List String

/-- The method `MachineReconciler.getConstraintTemplateNameList`. The loop variable is only
read (`item.GetName()`), so its allocation does not matter. -/
def getConstraintTemplateNameList (m : DynamicClient)
    (group version resource : String) : NameList :=
  match m.list group version resource with
  | ListOutcome.notFound => ⟨[], none, []⟩
  | ListOutcome.failure msg =>
    ⟨[], some msg, ["Error listing " ++ resource ++ " Resources: " ++ msg ++ "\n"]⟩
  | ListOutcome.items list =>
    ⟨list.foldl (fun releases item => releases ++ [GetName item]) [], none, []⟩

/-! ## `ConstraintAnalyzer.Analyze` (gatekeeperconstraint.go) -/

/-- The kind string of the constraint analyzer. -/
def constraintKind : String := "GatekeeperConstraint"

/-- Lines 106-116: the failures extracted from one constraint document. -/
def constraintFailures (release : Unstructured) : List Failure :=
  let objStatus := NestedMap release.Object ["status"]
  let tempStatus := decodeStatus objStatus
  tempStatus.Violations.foldl
    (fun failures violation => failures ++ [⟨violation.Message, []⟩]) []

/-- Lines 104-122: one iteration of the loop over `constraintlist`. -/
def constraintStep (preAnalysis : GoMap PreAnalysis) (release : Unstructured) :
    GoMap PreAnalysis :=
  let name := GetName release
  let failures := constraintFailures release
  if failures.length > 0 then
    mapAssign preAnalysis (sprintfSlash (GetKind release) name) ⟨zeroHpa, failures⟩
  else preAnalysis

/-- Lines 102-123: one iteration of the loop over `constrainttemplate`; each `release` is
read through its pointer. The errors of `getConstraint` are discarded, its logger lines
kept. -/
def constraintTemplateStep (sem : LoopVarSemantics) (m : DynamicClient)
    (st : GoMap PreAnalysis × List String) (template : String) :
    GoMap PreAnalysis × List String :=
  let constraintlist := getConstraint sem m "constraints.gatekeeper.sh" "v1beta1" template
  (constraintlist.releases.foldl
      (fun preAnalysis p => constraintStep preAnalysis (deref constraintlist.heap p)) st.1,
    st.2 ++ constraintlist.logs)

/-- Lines 124-131: one iteration of the loop over `preAnalysis`. -/
def constraintFlushStep (results : List Result) (entry : String × PreAnalysis) : List Result :=
  results ++ [⟨constraintKind, entry.1, entry.2.FailureDetails, ""⟩]

/-- What `ConstraintAnalyzer.Analyze` returns, with the lines written to the logger. -/
structure ConstraintOutcome where
  results : List Result
  err : Option String
  logs : List String
deriving DecidableEq, Repr

/-- The method `ConstraintAnalyzer.Analyze`. `init` is what `InitializeClients` produced: when
it failed the discarded error leaves a nil `dynamic.Interface`, and the first
`m.DynClient.Resource` call panics (`none`). -/
def ConstraintAnalyzer.Analyze (ord : RangeOrder) (sem : LoopVarSemantics)
    (init : Option DynamicClient) (a : Analyzer) : Option ConstraintOutcome :=
  match init with
  | none => none
  | some dynamicClient =>
    let templates :=
      getConstraintTemplateNameList dynamicClient "templates.gatekeeper.sh" "v1"
        "constrainttemplates"
    let scanned :=
      templates.names.foldl (constraintTemplateStep sem dynamicClient) ([], templates.logs)
    some ⟨(ord.pick scanned.1).foldl constraintFlushStep a.Results, none, scanned.2⟩

/-! ## Vocabulary of the autoscaler claims -/

/-- A condition counts as a failure when its status is not the string `True`. -/
def notTrue (condition : HorizontalPodAutoscalerCondition) : Bool :=
  condition.Status != "True"

/-- The object has at least one condition whose status is not `True`. -/
def hasFailure (hpa : HorizontalPodAutoscaler) : Bool :=
  hpa.Status.Conditions.any notTrue

/-- The findings expected for an object: the messages of its non-`True` conditions, in
condition order, each with an empty `Sensitive` list. -/
def expectedFailures (hpa : HorizontalPodAutoscaler) : List Failure :=
  (hpa.Status.Conditions.filter notTrue).map (fun condition => ⟨condition.Message, []⟩)

/-- The identity key of an autoscaler: namespace, a slash, name. -/
def identityKey (hpa : HorizontalPodAutoscaler) : String :=
  hpa.ObjectMeta.Namespace ++ "/" ++ hpa.ObjectMeta.Name

/-- The assignments to `preAnalysis` made by the first loop of `HpaAnalyzer.Analyze`. -/
def hpaWrites (items : List HorizontalPodAutoscaler) : List (String × PreAnalysis) :=
  (items.filter hasFailure).map (fun hpa => (identityKey hpa, ⟨hpa, expectedFailures hpa⟩))

/-- The gauge-set calls made by the first loop of `HpaAnalyzer.Analyze`. -/
def hpaSets (items : List HorizontalPodAutoscaler) : List Event :=
  (items.filter hasFailure).map (fun hpa =>
    Event.metricSet hpaKind hpa.ObjectMeta.Name hpa.ObjectMeta.Namespace
      (hpa.Status.Conditions.filter notTrue).length)

/-- The `preAnalysis` map at the end of the first loop of `HpaAnalyzer.Analyze`. -/
def hpaBuckets (items : List HorizontalPodAutoscaler) : GoMap PreAnalysis :=
  mapAssignAll [] (hpaWrites items)

/-- The `Result` built by the second loop from one entry of `preAnalysis`. -/
def hpaResult (client : Client) (entry : String × PreAnalysis) : Result :=
  ⟨hpaKind, entry.1, entry.2.FailureDetails,
    if (client.getParent entry.2.HorizontalPodAutoscalers.ObjectMeta).2
    then (client.getParent entry.2.HorizontalPodAutoscalers.ObjectMeta).1 else ""⟩


/-- The event is a call on the metrics sink. -/
def Event.isMetric : Event → Bool
  | Event.metricDelete _ => true
  | Event.metricSet _ _ _ _ => true
  | _ => false

/-- The argument of an ownership-resolver call, if the event is one. -/
def Event.parentArg : Event → Option ObjectMeta
  | Event.getParent m => some m
  | _ => none


/-! ## Vocabulary of the constraint claims -/

/-- The documents that the inner loop of `ConstraintAnalyzer.Analyze` reads for one template:
the entries of `constraintlist`, each read through its pointer. -/
def constraintlistDocs (sem : LoopVarSemantics) (m : DynamicClient) (template : String) :
    List Unstructured :=
  (getConstraint sem m "constraints.gatekeeper.sh" "v1beta1" template).releases.map
    (deref (getConstraint sem m "constraints.gatekeeper.sh" "v1beta1" template).heap)

/-- The template names that `ConstraintAnalyzer.Analyze` loops over. -/
def templateNames (m : DynamicClient) : List String :=
  (getConstraintTemplateNameList m "templates.gatekeeper.sh" "v1" "constrainttemplates").names

/-- All documents examined by one pass of `ConstraintAnalyzer.Analyze`, in order. -/
def examined (sem : LoopVarSemantics) (m : DynamicClient) : List Unstructured :=
  (templateNames m).flatMap (constraintlistDocs sem m)

/-- The findings expected for a document: one per decoded violation, carrying its message. -/
def violationFailures (release : Unstructured) : List Failure :=
  (decodeStatus (NestedMap release.Object ["status"])).Violations.map
    (fun violation => ⟨violation.Message, []⟩)

/-- The document yields at least one finding. -/
def hasViolation (release : Unstructured) : Bool :=
  (violationFailures release).length > 0

/-- The identity key of a constraint document: kind, a slash, name. -/
def constraintKey (release : Unstructured) : String :=
  GetKind release ++ "/" ++ GetName release

/-- The assignments to `preAnalysis` made while examining `docs`. -/
def constraintWrites (docs : List Unstructured) : List (String × PreAnalysis) :=
  (docs.filter hasViolation).map
    (fun release => (constraintKey release, ⟨zeroHpa, violationFailures release⟩))

/-- The `preAnalysis` map after examining `docs`. -/
def constraintBuckets (docs : List Unstructured) : GoMap PreAnalysis :=
  mapAssignAll [] (constraintWrites docs)

/-- The `Result` built from one entry of `preAnalysis` by the constraint analyzer. -/
def constraintResult (entry : String × PreAnalysis) : Result :=
  ⟨constraintKind, entry.1, entry.2.FailureDetails, ""⟩

/-- A well-formed violation record: a map with string `kind` and string `message`. -/
def violationRecord (kind message : String) : JSON :=
  JSON.obj [("kind", JSON.str kind), ("message", JSON.str message)]


/-! ## Concrete inputs -/

/-- A resolver that finds the first owner reference of the object, if it has one. -/
def ownerResolver (m : ObjectMeta) : String × Bool :=
  match m.OwnerReferences with
  | [] => ("", false)
  | owner :: _ => (owner.Kind ++ "/" ++ owner.Name, true)

/-- An analyzer over a fixed list of autoscalers, with no prior Results. -/
def analyzerOf (items : List HorizontalPodAutoscaler) : Analyzer :=
  ⟨⟨fun _ => Except.ok items, ownerResolver⟩, "default", []⟩

/-- The objects of `TestHpaAnalyzer_AnalyzeMultipleFailures`. -/
def testHpa1 : HorizontalPodAutoscaler :=
  ⟨⟨"example-hpa-1", "default", []⟩,
    ⟨[⟨"AbleToScale", "False", "", "HPA scaling is not active"⟩]⟩⟩

def testHpa2 : HorizontalPodAutoscaler :=
  ⟨⟨"example-hpa-2", "default", [⟨"Deployment", "web"⟩]⟩,
    ⟨[⟨"ScalingActive", "False", "", "HPA scaling is not active"⟩]⟩⟩

def testHpa3 : HorizontalPodAutoscaler :=
  ⟨⟨"example-hpa-3", "default", []⟩, ⟨[⟨"ScalingLimited", "True", "", ""⟩]⟩⟩

/-- An object with one condition of each status: `False`, `True`, `Unknown` and empty. -/
def mixedHpa : HorizontalPodAutoscaler :=
  ⟨⟨"web", "default", []⟩,
    ⟨[⟨"ScalingActive", "False", "", "A"⟩, ⟨"AbleToScale", "True", "", "fine"⟩,
      ⟨"ScalingLimited", "Unknown", "", "B"⟩, ⟨"Custom", "", "", "C"⟩]⟩⟩

/-- Two listed objects with the same namespace and name, both failing. -/
def earlierHpa : HorizontalPodAutoscaler :=
  ⟨⟨"web", "default", [⟨"Deployment", "earlier-owner"⟩]⟩,
    ⟨[⟨"ScalingActive", "False", "", "earlier is failing"⟩]⟩⟩

def laterHpa : HorizontalPodAutoscaler :=
  ⟨⟨"web", "default", [⟨"Deployment", "later-owner"⟩]⟩,
    ⟨[⟨"AbleToScale", "False", "", "later is failing"⟩]⟩⟩

/-- A constraint template document with the given name. -/
def templateDoc (name : String) : Unstructured :=
  ⟨[("kind", JSON.str "ConstraintTemplate"), ("metadata", JSON.obj [("name", JSON.str name)])]⟩

/-- A constraint document with the given kind, name and `status` value. -/
def constraintDoc (kind name : String) (status : JSON) : Unstructured :=
  ⟨[("kind", JSON.str kind), ("metadata", JSON.obj [("name", JSON.str name)]),
    ("status", status)]⟩

/-- A constraint document without a `status` field. -/
def bareDoc (kind name : String) : Unstructured :=
  ⟨[("kind", JSON.str kind), ("metadata", JSON.obj [("name", JSON.str name)])]⟩

/-- A status map holding the given violations list. -/
def statusOf (elems : List JSON) : JSON := JSON.obj [("violations", JSON.arr elems)]

/-- A dynamic client with the given template documents and constraint listings. -/
def clientOf (templates : List Unstructured) (constraints : String → ListOutcome) :
    DynamicClient :=
  ⟨fun group _ resource =>
    if group = "templates.gatekeeper.sh" then ListOutcome.items templates
    else constraints resource⟩

/-- An analyzer with no prior Results for the constraint analyzer. -/
def emptyAnalyzer : Analyzer := analyzerOf []

/-- Two failing constraints of one template, with different names. -/
def labelsFirst : Unstructured :=
  constraintDoc "K8sRequiredLabels" "ns-must-have-owner"
    (statusOf [violationRecord "Namespace" "missing label owner"])

def labelsSecond : Unstructured :=
  constraintDoc "K8sRequiredLabels" "pod-must-have-team"
    (statusOf [violationRecord "Pod" "missing label team"])

/-- One template whose constraint listing holds the two failing constraints. -/
def labelsClient : DynamicClient :=
  clientOf [templateDoc "k8srequiredlabels"]
    (fun resource =>
      if resource = "k8srequiredlabels" then ListOutcome.items [labelsFirst, labelsSecond]
      else ListOutcome.notFound)

/-- Two documents of the same kind and name with different violations. -/
def sameKeyFirst : Unstructured :=
  constraintDoc "K8sRequiredLabels" "must-have-owner"
    (statusOf [violationRecord "Namespace" "first"])

def sameKeySecond : Unstructured :=
  constraintDoc "K8sRequiredLabels" "must-have-owner"
    (statusOf [violationRecord "Namespace" "second"])

/-- Two templates, each listing one of the two documents with the same key. -/
def sameKeyClient : DynamicClient :=
  clientOf [templateDoc "a", templateDoc "b"]
    (fun resource =>
      if resource = "a" then ListOutcome.items [sameKeyFirst]
      else if resource = "b" then ListOutcome.items [sameKeySecond]
      else ListOutcome.notFound)

/-- A document whose violations list holds a string and a record with a numeric message. -/
def malformedDoc : Unstructured :=
  constraintDoc "K8sRequiredLabels" "ns-must-have-gk"
    (statusOf [JSON.str "not a record",
      JSON.obj [("kind", JSON.str "Namespace"), ("message", JSON.num 42)]])

/-- One template whose constraint listing holds the malformed document. -/
def malformedClient : DynamicClient :=
  clientOf [templateDoc "k8srequiredlabels"]
    (fun resource =>
      if resource = "k8srequiredlabels" then ListOutcome.items [malformedDoc]
      else ListOutcome.notFound)

/-- A document whose `status` is a string. -/
def stringStatusDoc : Unstructured :=
  constraintDoc "K8sRequiredLabels" "broken" (JSON.str "oops")

/-- One template listing a document with a string status before a failing constraint. -/
def stringStatusClient : DynamicClient :=
  clientOf [templateDoc "k8srequiredlabels"]
    (fun resource =>
      if resource = "k8srequiredlabels" then ListOutcome.items [stringStatusDoc, labelsSecond]
      else ListOutcome.notFound)

/-- One template whose constraint listing holds only the second failing constraint. -/
def secondOnlyClient : DynamicClient :=
  clientOf [templateDoc "k8srequiredlabels"]
    (fun resource =>
      if resource = "k8srequiredlabels" then ListOutcome.items [labelsSecond]
      else ListOutcome.notFound)

/-- One template listing a document without status before a failing constraint. -/
def bareClient : DynamicClient :=
  clientOf [templateDoc "k8srequiredlabels"]
    (fun resource =>
      if resource = "k8srequiredlabels" then
        ListOutcome.items [bareDoc "K8sRequiredLabels" "quiet", labelsSecond]
      else ListOutcome.notFound)

/-- Two templates; the constraint kind of the first is not found. -/
def missingKindClient : DynamicClient :=
  clientOf [templateDoc "gone", templateDoc "k8srequiredlabels"]
    (fun resource =>
      if resource = "k8srequiredlabels" then ListOutcome.items [labelsSecond]
      else ListOutcome.notFound)

/-- A client whose every list call answers not-found. -/
def notFoundClient : DynamicClient := ⟨fun _ _ _ => ListOutcome.notFound⟩


/-- Two listed autoscalers `prod/api`, both failing, the first shadowed by the second. -/
def shadowedHpa : HorizontalPodAutoscaler :=
  ⟨⟨"api", "prod", []⟩, ⟨[⟨"ScalingActive", "False", "", "first message"⟩]⟩⟩

def shadowingHpa : HorizontalPodAutoscaler :=
  ⟨⟨"api", "prod", []⟩, ⟨[⟨"AbleToScale", "Unknown", "", "second message"⟩]⟩⟩

/-- A document whose only violation record has the key `message` and, spelled with a long s,
a second key that `encoding/json` also takes for the field `Message`. -/
def ghostDoc : Unstructured :=
  constraintDoc "K8sRequiredLabels" "ghost-key"
    (statusOf [JSON.obj [("kind", JSON.str "Namespace"), ("message", JSON.str "real"),
      ("meſsage", JSON.str "ghost")]])

/-- One template whose constraint listing holds the document with the long-s key. -/
def ghostClient : DynamicClient :=
  clientOf [templateDoc "k8srequiredlabels"]
    (fun resource =>
      if resource = "k8srequiredlabels" then ListOutcome.items [ghostDoc]
      else ListOutcome.notFound)

/-- A document whose status holds a string under `violations` and a list of one record under
`Violations`. -/
def variantDoc : Unstructured :=
  constraintDoc "K8sRequiredLabels" "variant-key"
    (JSON.obj [("Violations", JSON.arr [violationRecord "Namespace" "bad"]),
      ("violations", JSON.str "oops")])

/-- One template whose constraint listing holds the document with the two spellings. -/
def variantClient : DynamicClient :=
  clientOf [templateDoc "k8srequiredlabels"]
    (fun resource =>
      if resource = "k8srequiredlabels" then ListOutcome.items [variantDoc]
      else ListOutcome.notFound)


/-- A document whose status holds one well-formed record under `violations` and an empty list
under `violations` spelled with a long s, which is marshalled after it. -/
def lateKeyDoc : Unstructured :=
  constraintDoc "K8sRequiredLabels" "late-key"
    (JSON.obj [("violations", JSON.arr [violationRecord "Namespace" "real"]),
      ("violationſ", JSON.arr [])])

/-- One template whose constraint listing holds the document with the late key. -/
def lateKeyClient : DynamicClient :=
  clientOf [templateDoc "k8srequiredlabels"]
    (fun resource =>
      if resource = "k8srequiredlabels" then ListOutcome.items [lateKeyDoc]
      else ListOutcome.notFound)


/-! ## Go map lemmas -/

theorem mapAssign_of_not_mem {V : Type} (m : GoMap V) (k : String) (v : V)
    (h : k ∉ mapKeys m) : mapAssign m k v = m ++ [(k, v)] := by
  induction m with
  | nil => rfl
  | cons e rest ih =>
    obtain ⟨k0, v0⟩ := e
    simp only [mapKeys, List.map_cons, List.mem_cons, not_or] at h
    have hne : ¬ k0 = k := fun hk => h.1 hk.symm
    simp only [mapAssign, hne, if_false, List.cons_append]
    rw [ih h.2]

theorem mapKeys_mapAssign_of_mem {V : Type} (m : GoMap V) (k : String) (v : V)
    (h : k ∈ mapKeys m) : mapKeys (mapAssign m k v) = mapKeys m := by
  induction m with
  | nil => simp [mapKeys] at h
  | cons e rest ih =>
    obtain ⟨k0, v0⟩ := e
    by_cases hk : k0 = k
    · simp [mapAssign, mapKeys, hk]
    · have hrest : k ∈ mapKeys rest := by
        simp only [mapKeys, List.map_cons, List.mem_cons] at h
        rcases h with h | h
        · exact absurd h.symm hk
        · exact h
      have := ih hrest
      simp only [mapKeys] at this
      simp [mapAssign, mapKeys, hk, this]

theorem mapKeys_mapAssign {V : Type} (m : GoMap V) (k : String) (v : V) :
    mapKeys (mapAssign m k v) = if k ∈ mapKeys m then mapKeys m else mapKeys m ++ [k] := by
  by_cases h : k ∈ mapKeys m
  · rw [if_pos h, mapKeys_mapAssign_of_mem m k v h]
  · rw [if_neg h, mapAssign_of_not_mem m k v h]
    simp [mapKeys]

theorem nodup_mapAssign {V : Type} (m : GoMap V) (k : String) (v : V)
    (hnd : (mapKeys m).Nodup) : (mapKeys (mapAssign m k v)).Nodup := by
  rw [mapKeys_mapAssign]
  split
  · exact hnd
  · rename_i h
    exact List.Nodup.append hnd (List.nodup_singleton k) (by simpa using h)

theorem mem_mapAssign {V : Type} (m : GoMap V) (hnd : (mapKeys m).Nodup) (k : String) (v : V)
    (e : String × V) : e ∈ mapAssign m k v ↔ e = (k, v) ∨ (e.1 ≠ k ∧ e ∈ m) := by
  induction m with
  | nil => simp [mapAssign]
  | cons e0 rest ih =>
    obtain ⟨k0, v0⟩ := e0
    simp only [mapKeys, List.map_cons, List.nodup_cons] at hnd
    have ih := ih hnd.2
    by_cases hk : k0 = k
    · subst hk
      simp only [mapAssign, if_true, List.mem_cons]
      constructor
      · rintro (h | h)
        · exact Or.inl h
        · refine Or.inr ⟨?_, Or.inr h⟩
          intro he
          exact hnd.1 (he ▸ List.mem_map_of_mem Prod.fst h)
      · rintro (h | ⟨hne, h | h⟩)
        · exact Or.inl h
        · exact absurd (by rw [h]) hne
        · exact Or.inr h
    · simp only [mapAssign, hk, if_false, List.mem_cons, ih]
      constructor
      · rintro (h | h | ⟨hne, h⟩)
        · exact Or.inr ⟨by rw [h]; exact hk, Or.inl h⟩
        · exact Or.inl h
        · exact Or.inr ⟨hne, Or.inr h⟩
      · rintro (h | ⟨hne, h | h⟩)
        · exact Or.inr (Or.inl h)
        · exact Or.inl h
        · exact Or.inr (Or.inr ⟨hne, h⟩)

theorem mapAssignAll_append {V : Type} (m : GoMap V) (ws : List (String × V))
    (w : String × V) :
    mapAssignAll m (ws ++ [w]) = mapAssign (mapAssignAll m ws) w.1 w.2 := by
  simp [mapAssignAll, List.foldl_append]

theorem nodup_mapAssignAll {V : Type} (ws : List (String × V)) (m : GoMap V)
    (hnd : (mapKeys m).Nodup) : (mapKeys (mapAssignAll m ws)).Nodup := by
  induction ws generalizing m with
  | nil => exact hnd
  | cons w rest ih => exact ih _ (nodup_mapAssign m w.1 w.2 hnd)

theorem mem_mapKeys_mapAssignAll {V : Type} (ws : List (String × V)) (m : GoMap V)
    (k : String) :
    k ∈ mapKeys (mapAssignAll m ws) ↔ k ∈ mapKeys m ∨ k ∈ ws.map Prod.fst := by
  induction ws generalizing m with
  | nil => simp [mapAssignAll]
  | cons w rest ih =>
    have := ih (mapAssign m w.1 w.2)
    simp only [mapAssignAll, List.foldl_cons] at this ⊢
    rw [this, mapKeys_mapAssign]
    split <;> rename_i h
    · simp only [List.map_cons, List.mem_cons]
      constructor
      · rintro (h1 | h1)
        · exact Or.inl h1
        · exact Or.inr (Or.inr h1)
      · rintro (h1 | h1 | h1)
        · exact Or.inl h1
        · exact Or.inl (h1 ▸ h)
        · exact Or.inr h1
    · simp only [List.mem_append, List.mem_singleton, List.map_cons, List.mem_cons]
      tauto

/-- Every entry of the map built from a sequence of assignments is one of the writes. -/
theorem mem_mapAssignAll_nil {V : Type} (ws : List (String × V)) (e : String × V)
    (h : e ∈ mapAssignAll [] ws) : e ∈ ws := by
  induction ws using List.reverseRecOn with
  | nil => simp [mapAssignAll] at h
  | append_singleton ws w ih =>
    rw [mapAssignAll_append] at h
    rw [mem_mapAssign _ (nodup_mapAssignAll ws [] List.nodup_nil)] at h
    rcases h with h | ⟨_, h⟩
    · simp [h]
    · exact List.mem_append_left _ (ih h)

/-- A write that no later write overrides is an entry of the final map. -/
theorem last_write_mem {V : Type} (pre post : List (String × V)) (w : String × V)
    (hpost : w.1 ∉ post.map Prod.fst) : w ∈ mapAssignAll [] (pre ++ w :: post) := by
  induction post using List.reverseRecOn with
  | nil =>
    rw [mapAssignAll_append, mem_mapAssign _ (nodup_mapAssignAll pre [] List.nodup_nil)]
    exact Or.inl rfl
  | append_singleton post x ih =>
    have hsplit : pre ++ w :: (post ++ [x]) = (pre ++ w :: post) ++ [x] := by simp
    rw [hsplit, mapAssignAll_append,
      mem_mapAssign _ (nodup_mapAssignAll (pre ++ w :: post) [] List.nodup_nil)]
    simp only [List.map_append, List.map_cons, List.map_nil, List.mem_append,
      List.mem_singleton, not_or] at hpost
    exact Or.inr ⟨hpost.2, ih hpost.1⟩

/-- With pairwise distinct keys the map is the list of writes itself. -/
theorem mapAssignAll_of_nodup {V : Type} (ws : List (String × V))
    (hnd : (ws.map Prod.fst).Nodup) : mapAssignAll [] ws = ws := by
  induction ws using List.reverseRecOn with
  | nil => rfl
  | append_singleton ws w ih =>
    simp only [List.map_append, List.map_cons, List.map_nil] at hnd
    have hws := (List.nodup_append.mp hnd).1
    have hdis := (List.nodup_append.mp hnd).2.2
    rw [mapAssignAll_append, ih hws]
    apply mapAssign_of_not_mem
    intro hmem
    exact hdis hmem (List.mem_singleton_self _)

/-- The number of entries is the number of distinct keys written. -/
theorem length_mapAssignAll_nil {V : Type} (ws : List (String × V)) :
    (mapAssignAll [] ws).length = (ws.map Prod.fst).toFinset.card := by
  have hnd := nodup_mapAssignAll ws [] List.nodup_nil
  have hlen : (mapAssignAll ([] : GoMap V) ws).length
      = (mapKeys (mapAssignAll [] ws)).length := by simp [mapKeys]
  rw [hlen, ← List.toFinset_card_of_nodup hnd]
  congr 1
  ext k
  simp only [List.mem_toFinset]
  rw [mem_mapKeys_mapAssignAll]
  simp [mapKeys]

/-! ## The two loops of `HpaAnalyzer.Analyze` in closed form -/

theorem hpaFailures_foldl (conditions : List HorizontalPodAutoscalerCondition)
    (acc : List Failure) :
    conditions.foldl
      (fun failures condition =>
        if condition.Status != "True" then failures ++ [⟨condition.Message, []⟩]
        else failures) acc
      = acc ++ (conditions.filter notTrue).map (fun condition => ⟨condition.Message, []⟩) := by
  induction conditions generalizing acc with
  | nil => simp
  | cons c rest ih =>
    rw [List.foldl_cons, ih]
    by_cases hc : (c.Status != "True") = true
    · have hn : notTrue c = true := hc
      simp [hc, List.filter_cons, hn]
    · have hn : ¬ notTrue c = true := hc
      simp [hc, List.filter_cons, hn]

theorem hpaFailures_eq (hpa : HorizontalPodAutoscaler) :
    hpaFailures hpa.Status.Conditions = expectedFailures hpa := by
  unfold hpaFailures expectedFailures
  rw [hpaFailures_foldl]
  simp

theorem hasFailure_iff_length (hpa : HorizontalPodAutoscaler) :
    hasFailure hpa = true ↔ (expectedFailures hpa).length > 0 := by
  unfold hasFailure expectedFailures
  rw [List.length_map, List.any_eq_true, gt_iff_lt, List.length_pos]
  constructor
  · rintro ⟨c, hc, hn⟩ hnil
    have : c ∈ hpa.Status.Conditions.filter notTrue := List.mem_filter.mpr ⟨hc, hn⟩
    rw [hnil] at this
    exact absurd this (List.not_mem_nil c)
  · intro hne
    obtain ⟨c, hc⟩ := List.exists_mem_of_ne_nil _ hne
    exact ⟨c, (List.mem_filter.mp hc).1, (List.mem_filter.mp hc).2⟩

theorem foldl_hpaListStep (items : List HorizontalPodAutoscaler) (m : GoMap PreAnalysis)
    (t : List Event) :
    items.foldl hpaListStep (m, t) = (mapAssignAll m (hpaWrites items), t ++ hpaSets items) := by
  induction items generalizing m t with
  | nil => simp [hpaWrites, hpaSets, mapAssignAll]
  | cons hpa rest ih =>
    rw [List.foldl_cons]
    by_cases hf : hasFailure hpa = true
    · have hlen := (hasFailure_iff_length hpa).mp hf
      have hstep : hpaListStep (m, t) hpa
          = (mapAssign m (identityKey hpa) ⟨hpa, expectedFailures hpa⟩,
              t ++ [Event.metricSet hpaKind hpa.ObjectMeta.Name hpa.ObjectMeta.Namespace
                (hpa.Status.Conditions.filter notTrue).length]) := by
        simp only [hpaListStep, hpaFailures_eq, hlen, if_true, identityKey, sprintfSlash]
        simp [expectedFailures]
      rw [hstep, ih]
      simp [hpaWrites, hpaSets, List.filter_cons, hf, mapAssignAll]
    · have hlen : ¬ (expectedFailures hpa).length > 0 := fun h =>
        hf ((hasFailure_iff_length hpa).mpr h)
      have hstep : hpaListStep (m, t) hpa = (m, t) := by
        simp only [hpaListStep, hpaFailures_eq, hlen, if_false]
      rw [hstep, ih]
      simp [hpaWrites, hpaSets, List.filter_cons, hf]

theorem foldl_hpaFlushStep (client : Client) (entries : List (String × PreAnalysis))
    (rs : List Result) (t : List Event) :
    entries.foldl (hpaFlushStep client) (rs, t)
      = (rs ++ entries.map (hpaResult client),
          t ++ entries.map (fun e => Event.getParent e.2.HorizontalPodAutoscalers.ObjectMeta)) := by
  induction entries generalizing rs t with
  | nil => simp
  | cons e rest ih =>
    rw [List.foldl_cons]
    have hstep : hpaFlushStep client (rs, t) e
        = (rs ++ [hpaResult client e],
            t ++ [Event.getParent e.2.HorizontalPodAutoscalers.ObjectMeta]) := rfl
    rw [hstep, ih]
    simp

/-- Closed form of a successful `HpaAnalyzer.Analyze`. -/
theorem hpaAnalyze_ok (ord : RangeOrder) (a : Analyzer) (items : List HorizontalPodAutoscaler)
    (hfetch : a.Client.listHpa a.Namespace = Except.ok items) :
    HpaAnalyzer.Analyze ord a
      = ⟨a.Results ++ (ord.pick (hpaBuckets items)).map (hpaResult a.Client), none,
          [Event.metricDelete [("analyzer_name", hpaKind)], Event.fetch a.Namespace]
            ++ hpaSets items
            ++ (ord.pick (hpaBuckets items)).map
                (fun e => Event.getParent e.2.HorizontalPodAutoscalers.ObjectMeta)⟩ := by
  unfold HpaAnalyzer.Analyze
  simp only [hfetch, foldl_hpaListStep, foldl_hpaFlushStep, hpaBuckets]
  simp

/-- Closed form of a failed fetch in `HpaAnalyzer.Analyze`. -/
theorem hpaAnalyze_error (ord : RangeOrder) (a : Analyzer) (e : String)
    (hfetch : a.Client.listHpa a.Namespace = Except.error e) :
    HpaAnalyzer.Analyze ord a
      = ⟨[], some e,
          [Event.metricDelete [("analyzer_name", hpaKind)], Event.fetch a.Namespace]⟩ := by
  unfold HpaAnalyzer.Analyze
  simp only [hfetch]
  simp

/-! ## Identity keys -/

theorem append_sep_inj {α : Type} (a : α) (l1 l2 r1 r2 : List α) (h1 : a ∉ l1) (h2 : a ∉ l2)
    (h : l1 ++ a :: r1 = l2 ++ a :: r2) : l1 = l2 ∧ r1 = r2 := by
  induction l1 generalizing l2 with
  | nil =>
    cases l2 with
    | nil => simpa using h
    | cons b l2 =>
      simp only [List.nil_append, List.cons_append, List.cons.injEq] at h
      exact absurd (h.1 ▸ List.mem_cons_self _ _) h2
  | cons b l1 ih =>
    cases l2 with
    | nil =>
      simp only [List.nil_append, List.cons_append, List.cons.injEq] at h
      exact absurd (h.1 ▸ List.mem_cons_self _ _) h1
    | cons c l2 =>
      simp only [List.cons_append, List.cons.injEq] at h
      have := ih l2 (fun hm => h1 (List.mem_cons_of_mem _ hm))
        (fun hm => h2 (List.mem_cons_of_mem _ hm)) h.2
      exact ⟨by rw [h.1, this.1], this.2⟩

/-- The key `namespace/name` determines namespace and name when namespaces have no slash. -/
theorem key_inj (ns1 n1 ns2 n2 : String) (h1 : '/' ∉ ns1.toList) (h2 : '/' ∉ ns2.toList)
    (h : ns1 ++ "/" ++ n1 = ns2 ++ "/" ++ n2) : ns1 = ns2 ∧ n1 = n2 := by
  have hd := congrArg String.data h
  simp only [String.data_append] at hd
  rw [List.append_assoc, List.append_assoc] at hd
  have := append_sep_inj '/' ns1.data ns2.data n1.data n2.data h1 h2 hd
  exact ⟨String.ext this.1, String.ext this.2⟩

/-! ## The buckets of the autoscaler analyzer -/

theorem mem_hpaWrites (items : List HorizontalPodAutoscaler) (e : String × PreAnalysis) :
    e ∈ hpaWrites items ↔
      ∃ hpa ∈ items, hasFailure hpa = true ∧
        e = (identityKey hpa, ⟨hpa, expectedFailures hpa⟩) := by
  unfold hpaWrites
  simp only [List.mem_map, List.mem_filter]
  constructor
  · rintro ⟨hpa, ⟨hm, hf⟩, he⟩
    exact ⟨hpa, hm, hf, he.symm⟩
  · rintro ⟨hpa, hm, hf, he⟩
    exact ⟨hpa, ⟨hm, hf⟩, he.symm⟩

theorem mem_hpaBuckets (items : List HorizontalPodAutoscaler) (e : String × PreAnalysis)
    (h : e ∈ hpaBuckets items) :
    ∃ hpa ∈ items, hasFailure hpa = true ∧
      e = (identityKey hpa, ⟨hpa, expectedFailures hpa⟩) :=
  (mem_hpaWrites items e).mp (mem_mapAssignAll_nil _ e h)

theorem nodup_hpaBuckets (items : List HorizontalPodAutoscaler) :
    (mapKeys (hpaBuckets items)).Nodup :=
  nodup_mapAssignAll _ [] List.nodup_nil

theorem key_mem_hpaBuckets (items : List HorizontalPodAutoscaler) (k : String) :
    k ∈ mapKeys (hpaBuckets items) ↔
      ∃ hpa ∈ items, hasFailure hpa = true ∧ identityKey hpa = k := by
  unfold hpaBuckets
  rw [mem_mapKeys_mapAssignAll]
  simp only [mapKeys, List.map_nil, List.not_mem_nil, false_or, List.mem_map]
  constructor
  · rintro ⟨e, he, hk⟩
    obtain ⟨hpa, hm, hf, rfl⟩ := (mem_hpaWrites items e).mp he
    exact ⟨hpa, hm, hf, hk⟩
  · rintro ⟨hpa, hm, hf, hk⟩
    exact ⟨_, (mem_hpaWrites items _).mpr ⟨hpa, hm, hf, rfl⟩, hk⟩

theorem hpaResult_name (client : Client) (entries : List (String × PreAnalysis)) :
    (entries.map (hpaResult client)).map Result.Name = mapKeys entries := by
  simp [mapKeys, hpaResult, Function.comp_def]

theorem parentArg_hpaSets (items : List HorizontalPodAutoscaler) :
    (hpaSets items).filterMap Event.parentArg = [] := by
  unfold hpaSets
  induction items.filter hasFailure with
  | nil => rfl
  | cons x rest ih => simp [List.filterMap_cons, Event.parentArg]

theorem parentArg_getParents (entries : List (String × PreAnalysis)) :
    (entries.map
      (fun e => Event.getParent e.2.HorizontalPodAutoscalers.ObjectMeta)).filterMap
        Event.parentArg
      = entries.map (fun e => e.2.HorizontalPodAutoscalers.ObjectMeta) := by
  induction entries with
  | nil => rfl
  | cons x rest ih => simpa [List.filterMap_cons, Event.parentArg] using ih

theorem isMetric_hpaSets (items : List HorizontalPodAutoscaler) :
    (hpaSets items).filter Event.isMetric = hpaSets items := by
  unfold hpaSets
  induction items.filter hasFailure with
  | nil => rfl
  | cons x rest ih => simp [List.filter_cons, Event.isMetric]

theorem isMetric_getParents (entries : List (String × PreAnalysis)) :
    (entries.map
      (fun e => Event.getParent e.2.HorizontalPodAutoscalers.ObjectMeta)).filter
        Event.isMetric = [] := by
  induction entries with
  | nil => rfl
  | cons x rest ih => simpa [List.filter_cons, Event.isMetric] using ih

/-! ## Claims about `HpaAnalyzer.Analyze` -/

/-- C9: the metrics sink sees one clear call for `analyzer_name = HorizontalPodAutoscaler`
first, before the fetch (so also when the fetch fails); after a successful fetch the remaining
metric calls are exactly one gauge-set per listed object with a finding, in list order,
labelled kind, name, namespace, with the number of its findings as value; a failed fetch is
followed by no metric call. -/
theorem C9_metrics_sink_calls (ord : RangeOrder) (a : Analyzer) :
    ∃ rest : List Event,
      (HpaAnalyzer.Analyze ord a).trace
        = Event.metricDelete [("analyzer_name", "HorizontalPodAutoscaler")]
            :: Event.fetch a.Namespace :: rest
      ∧ rest.filter Event.isMetric
        = match a.Client.listHpa a.Namespace with
          | Except.error _ => []
          | Except.ok items =>
            (items.filter hasFailure).map (fun hpa =>
              Event.metricSet "HorizontalPodAutoscaler" hpa.ObjectMeta.Name
                hpa.ObjectMeta.Namespace (expectedFailures hpa).length) := by
  cases hfetch : a.Client.listHpa a.Namespace with
  | error e =>
    refine ⟨[], ?_, rfl⟩
    rw [hpaAnalyze_error ord a e hfetch]
    rfl
  | ok items =>
    refine ⟨hpaSets items ++ (ord.pick (hpaBuckets items)).map
      (fun e => Event.getParent e.2.HorizontalPodAutoscalers.ObjectMeta), ?_, ?_⟩
    · rw [hpaAnalyze_ok ord a items hfetch]
      simp [hpaKind]
    · rw [List.filter_append, isMetric_hpaSets, isMetric_getParents, List.append_nil]
      simp [hpaSets, hpaKind, expectedFailures]

/-- C8: after a successful fetch the ownership resolver is called once per emitted Result, in
emission order, each time with the metadata of a listed object that has findings and whose
bucket the Result comes from; the Result carries the returned descriptor when `found` is true
and an empty parent when it is false; and every listed object with findings has an emitted
Result under its key whatever the resolver answers. -/
theorem C8_parent_resolution (ord : RangeOrder) (a : Analyzer)
    (items : List HorizontalPodAutoscaler)
    (hfetch : a.Client.listHpa a.Namespace = Except.ok items) :
    (HpaAnalyzer.Analyze ord a).results
        = a.Results ++ (HpaAnalyzer.Analyze ord a).results.drop a.Results.length
    ∧ List.Forall₂
        (fun (r : Result) (m : ObjectMeta) =>
          (∃ hpa ∈ items, hasFailure hpa = true ∧ hpa.ObjectMeta = m
            ∧ r.Name = identityKey hpa ∧ r.Error = expectedFailures hpa)
          ∧ ((a.Client.getParent m).2 = true → r.ParentObject = (a.Client.getParent m).1)
          ∧ ((a.Client.getParent m).2 = false → r.ParentObject = ""))
        ((HpaAnalyzer.Analyze ord a).results.drop a.Results.length)
        ((HpaAnalyzer.Analyze ord a).trace.filterMap Event.parentArg)
    ∧ ∀ hpa ∈ items, hasFailure hpa = true →
        ∃ r ∈ (HpaAnalyzer.Analyze ord a).results.drop a.Results.length,
          r.Name = identityKey hpa := by
  rw [hpaAnalyze_ok ord a items hfetch]
  simp only [List.drop_left]
  refine ⟨trivial, ?_, ?_⟩
  · have hcalls : ([Event.metricDelete [("analyzer_name", hpaKind)], Event.fetch a.Namespace]
        ++ hpaSets items
        ++ (ord.pick (hpaBuckets items)).map
            (fun e => Event.getParent e.2.HorizontalPodAutoscalers.ObjectMeta)).filterMap
          Event.parentArg
        = (ord.pick (hpaBuckets items)).map
            (fun e => e.2.HorizontalPodAutoscalers.ObjectMeta) := by
      rw [List.filterMap_append, List.filterMap_append, parentArg_hpaSets,
        parentArg_getParents]
      rfl
    rw [hcalls, List.forall₂_map_left_iff, List.forall₂_map_right_iff, List.forall₂_same]
    intro e he
    obtain ⟨hpa, hm, hf, rfl⟩ :=
      mem_hpaBuckets items e (((ord.perm _).mem_iff).mp he)
    refine ⟨⟨hpa, hm, hf, rfl, rfl, rfl⟩, ?_, ?_⟩
    · intro hfound
      simp [hpaResult, hfound]
    · intro hfound
      simp [hpaResult, hfound]
  · intro hpa hm hf
    have hk : identityKey hpa ∈ mapKeys (hpaBuckets items) :=
      (key_mem_hpaBuckets items _).mpr ⟨hpa, hm, hf, rfl⟩
    simp only [mapKeys, List.mem_map] at hk
    obtain ⟨e, he, hke⟩ := hk
    exact ⟨hpaResult a.Client e,
      List.mem_map_of_mem _ (((ord.perm _).mem_iff).mpr he), hke⟩


/-- C6: with no prior Results the returned Results have pairwise distinct names, and there
are at most as many of them as there are distinct (namespace, name) pairs among the listed
objects with a non-`True` condition, hence at most as many as there are distinct listed
objects with a non-`True` condition. -/
theorem C6_distinct_names_and_bound (ord : RangeOrder) (a : Analyzer)
    (items : List HorizontalPodAutoscaler)
    (hfetch : a.Client.listHpa a.Namespace = Except.ok items) (hprior : a.Results = []) :
    ((HpaAnalyzer.Analyze ord a).results.map Result.Name).Nodup
    ∧ (HpaAnalyzer.Analyze ord a).results.length
        ≤ (((items.filter hasFailure).map
            (fun hpa => (hpa.ObjectMeta.Namespace, hpa.ObjectMeta.Name))).dedup).length
    ∧ (HpaAnalyzer.Analyze ord a).results.length ≤ ((items.filter hasFailure).dedup).length := by
  rw [hpaAnalyze_ok ord a items hfetch, hprior]
  simp only [List.nil_append]
  have hlen : ((ord.pick (hpaBuckets items)).map (hpaResult a.Client)).length
      = ((items.filter hasFailure).map identityKey).toFinset.card := by
    rw [List.length_map, (ord.perm _).length_eq]
    unfold hpaBuckets
    rw [length_mapAssignAll_nil]
    have hkeys : (hpaWrites items).map Prod.fst = (items.filter hasFailure).map identityKey := by
      simp [hpaWrites, Function.comp_def]
    rw [hkeys]
  refine ⟨?_, ?_, ?_⟩
  · rw [hpaResult_name]
    exact ((ord.perm _).map Prod.fst).nodup_iff.mpr (nodup_hpaBuckets items)
  · rw [hlen, ← List.card_toFinset]
    have himg : ((items.filter hasFailure).map identityKey).toFinset
        = (((items.filter hasFailure).map
            (fun hpa => (hpa.ObjectMeta.Namespace, hpa.ObjectMeta.Name))).toFinset).image
          (fun p => p.1 ++ "/" ++ p.2) := by
      ext k
      simp [identityKey]
    rw [himg]
    exact Finset.card_image_le
  · rw [hlen, ← List.card_toFinset]
    have himg : ((items.filter hasFailure).map identityKey).toFinset
        = (items.filter hasFailure).toFinset.image identityKey := by
      ext k
      simp
    rw [himg]
    exact Finset.card_image_le

/-- Under the hypotheses of C1 the identity key determines the listed object. -/
theorem identityKey_inj_on (items : List HorizontalPodAutoscaler)
    (hdistinct :
      (items.map (fun hpa => (hpa.ObjectMeta.Namespace, hpa.ObjectMeta.Name))).Nodup)
    (hslash : ∀ hpa ∈ items, '/' ∉ hpa.ObjectMeta.Namespace.toList)
    (x y : HorizontalPodAutoscaler) (hx : x ∈ items) (hy : y ∈ items)
    (hk : identityKey x = identityKey y) : x = y := by
  have := key_inj _ _ _ _ (hslash x hx) (hslash y hy) hk
  exact List.inj_on_of_nodup_map hdistinct hx hy (Prod.ext this.1 this.2)

/-- With pairwise distinct keys the buckets are the writes, one per failing object. -/
theorem hpaBuckets_of_distinct (items : List HorizontalPodAutoscaler)
    (hdistinct :
      (items.map (fun hpa => (hpa.ObjectMeta.Namespace, hpa.ObjectMeta.Name))).Nodup)
    (hslash : ∀ hpa ∈ items, '/' ∉ hpa.ObjectMeta.Namespace.toList) :
    hpaBuckets items = hpaWrites items
    ∧ ((items.filter hasFailure).map identityKey).Nodup := by
  have hnd : ((items.filter hasFailure).map identityKey).Nodup := by
    apply List.Nodup.map_on
    · intro x hx y hy hk
      exact identityKey_inj_on items hdistinct hslash x y (List.mem_filter.mp hx).1
        (List.mem_filter.mp hy).1 hk
    · exact (List.Nodup.of_map _ hdistinct).filter _
  refine ⟨?_, hnd⟩
  apply mapAssignAll_of_nodup
  have hkeys : (hpaWrites items).map Prod.fst = (items.filter hasFailure).map identityKey := by
    simp [hpaWrites, Function.comp_def]
  rw [hkeys]
  exact hnd

/-- C1: for a fetched list whose (namespace, name) pairs are pairwise distinct and whose
namespaces contain no slash, and no prior Results, `Analyze` returns a nil error, exactly one
Result under the key of each object with a non-`True` condition, no Result under the key of
an object without one, no other Result, and the Error list of the Result of an object has as
many entries as the object has non-`True` conditions. -/
theorem C1_one_result_per_failing_object (ord : RangeOrder) (a : Analyzer)
    (items : List HorizontalPodAutoscaler)
    (hfetch : a.Client.listHpa a.Namespace = Except.ok items) (hprior : a.Results = [])
    (hdistinct :
      (items.map (fun hpa => (hpa.ObjectMeta.Namespace, hpa.ObjectMeta.Name))).Nodup)
    (hslash : ∀ hpa ∈ items, '/' ∉ hpa.ObjectMeta.Namespace.toList) :
    (HpaAnalyzer.Analyze ord a).err = none
    ∧ (∀ hpa ∈ items, hasFailure hpa = true →
        ((HpaAnalyzer.Analyze ord a).results.map Result.Name).count
            (hpa.ObjectMeta.Namespace ++ "/" ++ hpa.ObjectMeta.Name) = 1
        ∧ ∀ r ∈ (HpaAnalyzer.Analyze ord a).results,
            r.Name = hpa.ObjectMeta.Namespace ++ "/" ++ hpa.ObjectMeta.Name →
            r.Error.length = (hpa.Status.Conditions.filter notTrue).length)
    ∧ (∀ hpa ∈ items, hasFailure hpa = false →
        ∀ r ∈ (HpaAnalyzer.Analyze ord a).results,
          r.Name ≠ hpa.ObjectMeta.Namespace ++ "/" ++ hpa.ObjectMeta.Name)
    ∧ (HpaAnalyzer.Analyze ord a).results.length = (items.filter hasFailure).length := by
  obtain ⟨hb, hnd⟩ := hpaBuckets_of_distinct items hdistinct hslash
  have hinj := identityKey_inj_on items hdistinct hslash
  rw [hpaAnalyze_ok ord a items hfetch, hprior, hb]
  simp only [List.nil_append]
  have hkeys : (hpaWrites items).map Prod.fst = (items.filter hasFailure).map identityKey := by
    simp [hpaWrites, Function.comp_def]
  have hperm := ord.perm (hpaWrites items)
  have hshape : ∀ r ∈ (ord.pick (hpaWrites items)).map (hpaResult a.Client),
      ∃ o ∈ items, hasFailure o = true ∧ r.Name = identityKey o
        ∧ r.Error = expectedFailures o := by
    intro r hr
    obtain ⟨e, he, rfl⟩ := List.mem_map.mp hr
    obtain ⟨o, ho, hf, rfl⟩ := (mem_hpaWrites items e).mp (hperm.mem_iff.mp he)
    exact ⟨o, ho, hf, rfl, rfl⟩
  refine ⟨trivial, ?_, ?_, ?_⟩
  · intro hpa hm hf
    constructor
    · rw [hpaResult_name]
      have hp : (mapKeys (ord.pick (hpaWrites items))).Perm
          ((items.filter hasFailure).map identityKey) := by
        have := hperm.map Prod.fst
        rw [hkeys] at this
        exact this
      rw [hp.count_eq]
      exact List.count_eq_one_of_mem hnd
        (List.mem_map_of_mem identityKey (List.mem_filter.mpr ⟨hm, hf⟩))
    · intro r hr hname
      obtain ⟨o, ho, _, hn, herr⟩ := hshape r hr
      have : o = hpa := hinj o hpa ho hm (by rw [← hn, hname]; rfl)
      subst this
      rw [herr]
      simp [expectedFailures]
  · intro hpa hm hf r hr hname
    obtain ⟨o, ho, hfo, hn, _⟩ := hshape r hr
    have : o = hpa := hinj o hpa ho hm (by rw [← hn, hname]; rfl)
    subst this
    rw [hf] at hfo
    exact Bool.noConfusion hfo
  · rw [List.length_map, hperm.length_eq]
    simp [hpaWrites]


/-! ## The loops of `ConstraintAnalyzer.Analyze` in closed form -/

theorem mapAssignAll_append_writes {V : Type} (m : GoMap V) (w1 w2 : List (String × V)) :
    mapAssignAll m (w1 ++ w2) = mapAssignAll (mapAssignAll m w1) w2 := by
  simp [mapAssignAll, List.foldl_append]

theorem violation_foldl (vs : List Violation) (acc : List Failure) :
    vs.foldl (fun failures violation => failures ++ [⟨violation.Message, []⟩]) acc
      = acc ++ vs.map (fun violation => ⟨violation.Message, []⟩) := by
  induction vs generalizing acc with
  | nil => simp
  | cons v rest ih => rw [List.foldl_cons, ih]; simp

theorem constraintFailures_eq (release : Unstructured) :
    constraintFailures release = violationFailures release := by
  unfold constraintFailures violationFailures
  simp only [violation_foldl, List.nil_append]

theorem constraintStep_eq (m : GoMap PreAnalysis) (release : Unstructured) :
    constraintStep m release
      = if hasViolation release = true
        then mapAssign m (constraintKey release) ⟨zeroHpa, violationFailures release⟩
        else m := by
  unfold constraintStep hasViolation
  simp only [constraintFailures_eq, constraintKey, sprintfSlash, decide_eq_true_eq]

theorem constraintWrites_append (d1 d2 : List Unstructured) :
    constraintWrites (d1 ++ d2) = constraintWrites d1 ++ constraintWrites d2 := by
  simp [constraintWrites, List.filter_append]

theorem foldl_constraintStep (docs : List Unstructured) (m : GoMap PreAnalysis) :
    docs.foldl constraintStep m = mapAssignAll m (constraintWrites docs) := by
  induction docs generalizing m with
  | nil => rfl
  | cons d rest ih =>
    rw [List.foldl_cons, ih, constraintStep_eq]
    by_cases hv : hasViolation d = true
    · simp [hv, constraintWrites, List.filter_cons, mapAssignAll]
    · simp [hv, constraintWrites, List.filter_cons]

theorem constraintTemplateStep_eq (sem : LoopVarSemantics) (m : DynamicClient)
    (st : GoMap PreAnalysis × List String) (template : String) :
    constraintTemplateStep sem m st template
      = (mapAssignAll st.1 (constraintWrites (constraintlistDocs sem m template)),
          st.2 ++ (getConstraint sem m "constraints.gatekeeper.sh" "v1beta1" template).logs) := by
  unfold constraintTemplateStep constraintlistDocs
  simp only [← foldl_constraintStep, List.foldl_map]

theorem foldl_constraintTemplateStep (sem : LoopVarSemantics) (m : DynamicClient)
    (names : List String) (pre : GoMap PreAnalysis) (logs : List String) :
    names.foldl (constraintTemplateStep sem m) (pre, logs)
      = (mapAssignAll pre (constraintWrites (names.flatMap (constraintlistDocs sem m))),
          logs ++ names.flatMap (fun template =>
            (getConstraint sem m "constraints.gatekeeper.sh" "v1beta1" template).logs)) := by
  induction names generalizing pre logs with
  | nil => simp [constraintWrites, mapAssignAll]
  | cons t rest ih =>
    rw [List.foldl_cons, constraintTemplateStep_eq, ih]
    simp [List.flatMap_cons, constraintWrites_append, mapAssignAll_append_writes]

theorem foldl_constraintFlushStep (entries : List (String × PreAnalysis)) (rs : List Result) :
    entries.foldl constraintFlushStep rs = rs ++ entries.map constraintResult := by
  induction entries generalizing rs with
  | nil => simp
  | cons e rest ih =>
    rw [List.foldl_cons, ih]
    simp [constraintFlushStep, constraintResult]

/-- Closed form of `ConstraintAnalyzer.Analyze` with an initialised client: the Results are
the prior Results followed by one Result per bucket, the error is nil. -/
theorem constraintAnalyze_some (ord : RangeOrder) (sem : LoopVarSemantics) (m : DynamicClient)
    (a : Analyzer) :
    ∃ logs, ConstraintAnalyzer.Analyze ord sem (some m) a
      = some ⟨a.Results
          ++ (ord.pick (constraintBuckets (examined sem m))).map constraintResult, none, logs⟩ := by
  unfold ConstraintAnalyzer.Analyze
  simp only [foldl_constraintTemplateStep, foldl_constraintFlushStep]
  exact ⟨_, rfl⟩


/-! ## `getConstraint`: what the returned pointers refer to -/

theorem getConstraintLoop_perIteration (items : List Unstructured) :
    getConstraintLoop LoopVarSemantics.perIteration items
      = (items, List.range items.length) := by
  unfold getConstraintLoop
  induction items using List.reverseRecOn with
  | nil => rfl
  | append_singleton init x ih =>
    simp only [] at ih
    simp only [List.foldl_append, List.foldl_cons, List.foldl_nil, ih, List.length_append,
      List.length_singleton, List.range_succ]

theorem getConstraintLoop_perLoop (items : List Unstructured) :
    getConstraintLoop LoopVarSemantics.perLoop items
      = ([items.getLastD zeroUnstructured], List.replicate items.length 0) := by
  unfold getConstraintLoop
  induction items using List.reverseRecOn with
  | nil => rfl
  | append_singleton init x ih =>
    simp only [] at ih
    simp only [List.foldl_append, List.foldl_cons, List.foldl_nil, ih, List.length_append,
      List.length_singleton, List.replicate_succ', List.set_cons_zero, List.getLastD_concat]

theorem map_deref_range (items : List Unstructured) :
    (List.range items.length).map (deref items) = items := by
  apply List.ext_getElem
  · simp
  · intro n h1 h2
    simp [deref, List.getElem?_eq_getElem h2]

/-- With a fresh variable per iteration the loop of `Analyze` reads the listed items. -/
theorem constraintlistDocs_perIteration (m : DynamicClient) (template : String)
    (items : List Unstructured)
    (h : m.list "constraints.gatekeeper.sh" "v1beta1" template = ListOutcome.items items) :
    constraintlistDocs LoopVarSemantics.perIteration m template = items := by
  unfold constraintlistDocs getConstraint
  simp only [h, getConstraintLoop_perIteration]
  exact map_deref_range items

/-- With one variable for the whole loop every pointer refers to the last listed item. -/
theorem constraintlistDocs_perLoop (m : DynamicClient) (template : String)
    (items : List Unstructured)
    (h : m.list "constraints.gatekeeper.sh" "v1beta1" template = ListOutcome.items items) :
    constraintlistDocs LoopVarSemantics.perLoop m template
      = List.replicate items.length (items.getLastD zeroUnstructured) := by
  unfold constraintlistDocs getConstraint
  simp only [h, getConstraintLoop_perLoop]
  simp [deref]

theorem constraintlistDocs_notFound (sem : LoopVarSemantics) (m : DynamicClient)
    (template : String)
    (h : m.list "constraints.gatekeeper.sh" "v1beta1" template = ListOutcome.notFound) :
    constraintlistDocs sem m template = [] := by
  unfold constraintlistDocs getConstraint
  simp only [h]
  rfl

theorem constraintlistDocs_failure (sem : LoopVarSemantics) (m : DynamicClient)
    (template : String) (msg : String)
    (h : m.list "constraints.gatekeeper.sh" "v1beta1" template = ListOutcome.failure msg) :
    constraintlistDocs sem m template = [] := by
  unfold constraintlistDocs getConstraint
  simp only [h]
  rfl


/-! ## Last writer wins -/

theorem entry_unique {V : Type} (m : GoMap V) (hnd : (mapKeys m).Nodup) (e1 e2 : String × V)
    (h1 : e1 ∈ m) (h2 : e2 ∈ m) (hk : e1.1 = e2.1) : e1 = e2 := by
  induction m with
  | nil => exact absurd h1 (List.not_mem_nil _)
  | cons x rest ih =>
    simp only [mapKeys, List.map_cons, List.nodup_cons] at hnd
    rcases List.mem_cons.mp h1 with h1 | h1 <;> rcases List.mem_cons.mp h2 with h2 | h2
    · rw [h1, h2]
    · exact absurd (by rw [← h1, hk]; exact List.mem_map_of_mem Prod.fst h2) hnd.1
    · exact absurd (by rw [← h2, ← hk]; exact List.mem_map_of_mem Prod.fst h1) hnd.1
    · exact ih hnd.2 h1 h2

theorem hasFailure_iff_exists (hpa : HorizontalPodAutoscaler) :
    hasFailure hpa = true ↔ ∃ c ∈ hpa.Status.Conditions, c.Status ≠ "True" := by
  unfold hasFailure
  rw [List.any_eq_true]
  simp [notTrue]

theorem last_hpa_mem_buckets (pre post : List HorizontalPodAutoscaler)
    (hpa : HorizontalPodAutoscaler) (hf : hasFailure hpa = true)
    (hpost : ∀ o ∈ post, hasFailure o = true → identityKey o ≠ identityKey hpa) :
    (identityKey hpa, (⟨hpa, expectedFailures hpa⟩ : PreAnalysis))
      ∈ hpaBuckets (pre ++ hpa :: post) := by
  have hw : hpaWrites (pre ++ hpa :: post)
      = hpaWrites pre ++ (identityKey hpa, ⟨hpa, expectedFailures hpa⟩) :: hpaWrites post := by
    simp [hpaWrites, List.filter_append, List.filter_cons, hf]
  unfold hpaBuckets
  rw [hw]
  apply last_write_mem
  intro hmem
  obtain ⟨e, he, hk⟩ := List.mem_map.mp hmem
  obtain ⟨o, ho, hfo, rfl⟩ := (mem_hpaWrites post e).mp he
  exact hpost o ho hfo hk

theorem mem_constraintWrites (docs : List Unstructured) (e : String × PreAnalysis) :
    e ∈ constraintWrites docs ↔
      ∃ d ∈ docs, hasViolation d = true ∧
        e = (constraintKey d, ⟨zeroHpa, violationFailures d⟩) := by
  unfold constraintWrites
  simp only [List.mem_map, List.mem_filter]
  constructor
  · rintro ⟨d, ⟨hm, hf⟩, he⟩
    exact ⟨d, hm, hf, he.symm⟩
  · rintro ⟨d, hm, hf, he⟩
    exact ⟨d, ⟨hm, hf⟩, he.symm⟩

theorem nodup_constraintBuckets (docs : List Unstructured) :
    (mapKeys (constraintBuckets docs)).Nodup :=
  nodup_mapAssignAll _ [] List.nodup_nil

theorem mem_constraintBuckets (docs : List Unstructured) (e : String × PreAnalysis)
    (h : e ∈ constraintBuckets docs) :
    ∃ d ∈ docs, hasViolation d = true ∧
      e = (constraintKey d, ⟨zeroHpa, violationFailures d⟩) :=
  (mem_constraintWrites docs e).mp (mem_mapAssignAll_nil _ e h)

theorem last_doc_mem_buckets (pre post : List Unstructured) (d : Unstructured)
    (hf : hasViolation d = true)
    (hpost : ∀ e ∈ post, hasViolation e = true → constraintKey e ≠ constraintKey d) :
    (constraintKey d, (⟨zeroHpa, violationFailures d⟩ : PreAnalysis))
      ∈ constraintBuckets (pre ++ d :: post) := by
  have hw : constraintWrites (pre ++ d :: post)
      = constraintWrites pre
        ++ (constraintKey d, ⟨zeroHpa, violationFailures d⟩) :: constraintWrites post := by
    simp [constraintWrites, List.filter_append, List.filter_cons, hf]
  unfold constraintBuckets
  rw [hw]
  apply last_write_mem
  intro hmem
  obtain ⟨e, he, hk⟩ := List.mem_map.mp hmem
  obtain ⟨o, ho, hfo, rfl⟩ := (mem_constraintWrites post e).mp he
  exact hpost o ho hfo hk

/-- A document without findings leaves the buckets as they are. -/
theorem constraintBuckets_skip (pre post : List Unstructured) (d : Unstructured)
    (hf : hasViolation d = false) :
    constraintBuckets (pre ++ d :: post) = constraintBuckets (pre ++ post) := by
  unfold constraintBuckets
  congr 1
  simp [constraintWrites, List.filter_append, List.filter_cons, hf]

theorem constraintResult_name (entries : List (String × PreAnalysis)) :
    (entries.map constraintResult).map Result.Name = mapKeys entries := by
  simp [mapKeys, constraintResult, Function.comp_def]

/-- The Results of `ConstraintAnalyzer.Analyze` with an initialised client. -/
theorem constraintAnalyze_results (ord : RangeOrder) (sem : LoopVarSemantics)
    (m : DynamicClient) (a : Analyzer) :
    (ConstraintAnalyzer.Analyze ord sem (some m) a).map ConstraintOutcome.results
      = some (a.Results
          ++ (ord.pick (constraintBuckets (examined sem m))).map constraintResult) := by
  obtain ⟨logs, h⟩ := constraintAnalyze_some ord sem m a
  rw [h]
  rfl

/-- With an initialised client `ConstraintAnalyzer.Analyze` returns, with a nil error. -/
theorem constraintAnalyze_err (ord : RangeOrder) (sem : LoopVarSemantics)
    (m : DynamicClient) (a : Analyzer) :
    (ConstraintAnalyzer.Analyze ord sem (some m) a).map ConstraintOutcome.err
      = some none := by
  obtain ⟨logs, h⟩ := constraintAnalyze_some ord sem m a
  rw [h]
  rfl

/-! ## Decoding the status of a document -/

theorem mem_mapEntries (fields : List (String × JSON)) (e : String × JSON) :
    e ∈ mapEntries fields ↔ fields.lookup e.1 = some e.2 := by
  induction fields with
  | nil => simp [mapEntries]
  | cons x rest ih =>
    obtain ⟨k, v⟩ := x
    obtain ⟨ek, ev⟩ := e
    simp only [mapEntries, List.mem_cons, List.mem_filter, ih, List.lookup_cons]
    by_cases hk : ek = k
    · subst hk
      simp [eq_comm]
    · have hb : (ek == k) = false := by simpa using hk
      simp [hb, hk]

theorem nodup_keys_mapEntries (fields : List (String × JSON)) :
    ((mapEntries fields).map Prod.fst).Nodup := by
  induction fields with
  | nil => simp [mapEntries]
  | cons x rest ih =>
    obtain ⟨k, v⟩ := x
    simp only [mapEntries, List.map_cons, List.nodup_cons]
    constructor
    · intro hmem
      obtain ⟨e, he, hek⟩ := List.mem_map.mp hmem
      have := (List.mem_filter.mp he).2
      simp [hek] at this
    · exact ih.sublist ((List.filter_sublist _).map Prod.fst)

theorem insertEntry_perm (e : String × JSON) (l : List (String × JSON)) :
    (insertEntry e l).Perm (e :: l) := by
  induction l with
  | nil => exact List.Perm.refl _
  | cons x rest ih =>
    unfold insertEntry
    split
    · exact List.Perm.refl _
    · exact (List.Perm.cons x ih).trans (List.Perm.swap e x rest)

theorem marshalOrder_perm (fields : List (String × JSON)) :
    (marshalOrder fields).Perm (mapEntries fields) := by
  unfold marshalOrder
  induction mapEntries fields with
  | nil => exact List.Perm.refl _
  | cons x rest ih =>
    rw [List.foldr_cons]
    exact (insertEntry_perm x _).trans (List.Perm.cons x ih)

theorem mem_marshalOrder (fields : List (String × JSON)) (e : String × JSON) :
    e ∈ marshalOrder fields ↔ fields.lookup e.1 = some e.2 := by
  rw [(marshalOrder_perm fields).mem_iff, mem_mapEntries]

theorem nodup_marshalOrder (fields : List (String × JSON)) : (marshalOrder fields).Nodup := by
  have h : ((marshalOrder fields).map Prod.fst).Nodup :=
    ((marshalOrder_perm fields).map Prod.fst).nodup_iff.mpr (nodup_keys_mapEntries fields)
  exact List.Nodup.of_map _ h

theorem foldl_inactive {α β : Type} (f : β → α → β) (l : List α) (init : β)
    (h : ∀ x ∈ l, ∀ s, f s x = s) : l.foldl f init = init := by
  induction l with
  | nil => rfl
  | cons x rest ih =>
    rw [List.foldl_cons, h x (List.mem_cons_self _ _)]
    exact ih (fun y hy => h y (List.mem_cons_of_mem _ hy))

theorem foldl_single {α β : Type} (f : β → α → β) (l : List α) (a : α) (init : β)
    (hnd : l.Nodup) (ha : a ∈ l) (h : ∀ x ∈ l, x ≠ a → ∀ s, f s x = s) :
    l.foldl f init = f init a := by
  induction l generalizing init with
  | nil => exact absurd ha (List.not_mem_nil _)
  | cons x rest ih =>
    rw [List.foldl_cons]
    have hnd2 := List.nodup_cons.mp hnd
    by_cases hx : x = a
    · subst hx
      apply foldl_inactive
      intro y hy s
      exact h y (List.mem_cons_of_mem _ hy) (fun hyx => hnd2.1 (hyx ▸ hy)) s
    · rw [h x (List.mem_cons_self _ _) hx]
      rcases List.mem_cons.mp ha with ha | ha
      · exact absurd ha.symm hx
      · exact ih init hnd2.2 ha (fun y hy => h y (List.mem_cons_of_mem _ hy))

theorem foldl_decodeViolationEntry_message (l : List (String × JSON)) (current : Violation) :
    (l.foldl decodeViolationEntry current).Message
      = l.foldl (fun m e =>
          if foldMatches "kind" e.1 then m
          else if foldMatches "message" e.1 then decodeStringField m e.2 else m)
        current.Message := by
  induction l generalizing current with
  | nil => rfl
  | cons e rest ih =>
    rw [List.foldl_cons, List.foldl_cons, ih]
    congr 1
    unfold decodeViolationEntry
    split
    · rfl
    · split <;> rfl

/-- An element that is not a map leaves the slice element as it is. -/
theorem decodeViolation_not_obj (current : Violation) (j : JSON)
    (h : ∀ fields, j ≠ JSON.obj fields) : decodeViolation current j = current := by
  cases j with
  | obj fields => exact absurd rfl (h fields)
  | _ => rfl

/-- A map none of whose keys matching `message` holds a string leaves the message as it is. -/
theorem decodeViolation_no_string (current : Violation) (fields : List (String × JSON))
    (h : ∀ key v, fields.lookup key = some v → foldMatches "message" key = true →
      ∀ s, v ≠ JSON.str s) :
    (decodeViolation current (JSON.obj fields)).Message = current.Message := by
  simp only [decodeViolation]
  rw [foldl_decodeViolationEntry_message]
  apply foldl_inactive
  intro x hx s
  have hl := (mem_marshalOrder fields x).mp hx
  split
  · rfl
  · split
    · rename_i _ hm
      have hns := h x.1 x.2 hl hm
      cases hv : x.2 with
      | str t => exact absurd hv (hns t)
      | _ => rfl
    · rfl

/-- A map whose only key matching `message` is `message` itself, holding a string, sets the
message to that string. -/
theorem decodeViolation_message (current : Violation) (fields : List (String × JSON))
    (s : String) (hmsg : fields.lookup "message" = some (JSON.str s))
    (honly : ∀ key v, fields.lookup key = some v → foldMatches "message" key = true →
      key = "message") :
    (decodeViolation current (JSON.obj fields)).Message = s := by
  simp only [decodeViolation]
  rw [foldl_decodeViolationEntry_message]
  rw [foldl_single _ (marshalOrder fields) ("message", JSON.str s) current.Message
    (nodup_marshalOrder fields) ((mem_marshalOrder fields _).mpr hmsg)]
  · have h1 : foldMatches "kind" "message" = false := by decide
    have h2 : foldMatches "message" "message" = true := by decide
    simp [h1, h2, decodeStringField]
  · intro x hx hne m
    have hl := (mem_marshalOrder fields x).mp hx
    have hkey : x.1 ≠ "message" := by
      intro hk
      apply hne
      rw [hk, hmsg] at hl
      exact Prod.ext hk (Option.some.inj hl).symm
    split
    · rfl
    · split
      · rename_i _ hm
        exact absurd (honly x.1 x.2 hl hm) hkey
      · rfl

theorem decodeElements_nil (elems : List JSON) :
    decodeElements [] elems = elems.map (decodeViolation zeroViolation) := by
  induction elems with
  | nil => rfl
  | cons e es ih => simp [decodeElements, ih]

/-- A status map whose only key matching `violations` is `violations` itself, holding a list,
decodes to one slice element per list element, each decoded from the zero value. -/
theorem decodeStatus_list (fields : List (String × JSON)) (elems : List JSON)
    (hv : fields.lookup "violations" = some (JSON.arr elems))
    (honly : ∀ key v, fields.lookup key = some v → foldMatches "violations" key = true →
      key = "violations") :
    (decodeStatus (some fields)).Violations = elems.map (decodeViolation zeroViolation) := by
  simp only [decodeStatus]
  rw [foldl_single decodeStatusEntry (marshalOrder fields) ("violations", JSON.arr elems)
    (⟨[], 0⟩ : ViolationSlice) (nodup_marshalOrder fields)
    ((mem_marshalOrder fields _).mpr hv)]
  · have h1 : foldMatches "violations" "violations" = true := by decide
    simp only [decodeStatusEntry, h1, if_true]
    cases elems with
    | nil => rfl
    | cons e es =>
      simp only [decodeViolations, ViolationSlice.elems, decodeElements_nil]
      rw [← List.length_map (e :: es) (decodeViolation zeroViolation), List.take_length]
  · intro x hx hne st
    have hl := (mem_marshalOrder fields x).mp hx
    have hkey : x.1 ≠ "violations" := by
      intro hk
      apply hne
      rw [hk, hv] at hl
      exact Prod.ext hk (Option.some.inj hl).symm
    unfold decodeStatusEntry
    split
    · rename_i hm
      exact absurd (honly x.1 x.2 hl hm) hkey
    · rfl

/-- A status map none of whose keys matching `violations` holds a list decodes to no
violation. -/
theorem decodeStatus_no_list (fields : List (String × JSON))
    (h : ∀ key v, fields.lookup key = some v → foldMatches "violations" key = true →
      ∀ elems, v ≠ JSON.arr elems) :
    (decodeStatus (some fields)).Violations = [] := by
  simp only [decodeStatus]
  have hinv : ∀ (l : List (String × JSON)), (∀ x ∈ l, x ∈ marshalOrder fields) →
      l.foldl decodeStatusEntry ⟨[], 0⟩ = ⟨[], 0⟩ := by
    intro l
    induction l with
    | nil => intro _; rfl
    | cons x rest ih =>
      intro hsub
      rw [List.foldl_cons]
      have hl := (mem_marshalOrder fields x).mp (hsub x (List.mem_cons_self _ _))
      have hstep : decodeStatusEntry ⟨[], 0⟩ x = ⟨[], 0⟩ := by
        unfold decodeStatusEntry
        split
        · rename_i hm
          have hna := h x.1 x.2 hl hm
          cases hv : x.2 with
          | arr elems => exact absurd hv (hna elems)
          | _ => rfl
        · rfl
      rw [hstep]
      exact ih (fun y hy => hsub y (List.mem_cons_of_mem _ hy))
  rw [hinv _ (fun x hx => hx)]
  rfl

theorem violationFailures_absent (release : Unstructured)
    (hs : release.Object.lookup "status" = none) : violationFailures release = [] := by
  simp [violationFailures, NestedMap, NestedFieldNoCopy, hs, decodeStatus]

theorem violationFailures_not_map (release : Unstructured) (st : JSON)
    (hs : release.Object.lookup "status" = some st) (hnot : ∀ fields, st ≠ JSON.obj fields) :
    violationFailures release = [] := by
  unfold violationFailures NestedMap
  simp only [NestedFieldNoCopy, hs]
  cases st with
  | obj fields => exact absurd rfl (hnot fields)
  | _ => rfl

theorem violationFailures_map (release : Unstructured) (statusFields : List (String × JSON))
    (hs : release.Object.lookup "status" = some (JSON.obj statusFields)) :
    violationFailures release
      = (decodeStatus (some statusFields)).Violations.map
          (fun violation => ⟨violation.Message, []⟩) := by
  unfold violationFailures NestedMap
  simp only [NestedFieldNoCopy, hs]

/-! ## The decoder on keys that differ in letter case -/

/-- The decoder takes `Violations` for the field `violations` and `MESSAGE` for the field
`message`; a long s stands for `s`; of two matching keys the one marshalled later is decoded
last; and a second list is decoded into the slice elements the first list left, which keep
the fields the second does not set. -/
theorem decodeStatus_case_variants :
    (decodeStatus (some [("Violations", JSON.arr [violationRecord "K" "bad"])])).Violations
        = [⟨"K", "bad"⟩]
    ∧ (decodeStatus (some [("violations",
          JSON.arr [JSON.obj [("MESSAGE", JSON.str "upper")]])])).Violations
        = [⟨"", "upper"⟩]
    ∧ (decodeStatus (some [("violations",
          JSON.arr [JSON.obj [("message", JSON.str "real"),
            ("meſsage", JSON.str "ghost")]])])).Violations
        = [⟨"", "ghost"⟩]
    ∧ (decodeStatus (some [("violations", JSON.str "oops"),
          ("Violations", JSON.arr [violationRecord "K" "bad"])])).Violations
        = [⟨"K", "bad"⟩]
    ∧ (decodeStatus (some [("violations", JSON.arr [JSON.obj [("kind", JSON.str "K2")]]),
          ("Violations", JSON.arr [violationRecord "K" "old",
            violationRecord "K" "dropped"])])).Violations
        = [⟨"K2", "old"⟩]
    ∧ (decodeStatus (some [("violations", JSON.null),
          ("Violations", JSON.arr [violationRecord "K" "bad"])])).Violations
        = [] := by
  decide

/-- Counterexample to C2: two listed autoscalers `prod/api`, each with one condition whose
status is not `True`. The first has the message `first message`, yet the only Result, named
`prod/api`, holds `second message`: no Result carries the messages of the first object. -/
theorem C2_counterexample :
    (∃ c ∈ shadowedHpa.Status.Conditions, c.Status ≠ "True")
    ∧ (HpaAnalyzer.Analyze insertionOrder (analyzerOf [shadowedHpa, shadowingHpa])).results
        = [⟨"HorizontalPodAutoscaler", "prod/api", [⟨"second message", []⟩], ""⟩]
    ∧ (HpaAnalyzer.Analyze reverseOrder (analyzerOf [shadowedHpa, shadowingHpa])).results
        = [⟨"HorizontalPodAutoscaler", "prod/api", [⟨"second message", []⟩], ""⟩]
    ∧ ¬ ∃ r ∈ (HpaAnalyzer.Analyze insertionOrder
          (analyzerOf [shadowedHpa, shadowingHpa])).results,
        r.Error = (shadowedHpa.Status.Conditions.filter (fun c => c.Status != "True")).map
          (fun c => ⟨c.Message, []⟩) := by
  decide

/-- C2 as amended: every Result that `Analyze` emits is the Result of a listed object with a
non-`True` condition: its Kind is `HorizontalPodAutoscaler`, its Name is namespace, slash,
name of that object, and its Error list is exactly the messages of the conditions of that
object whose status is not `True`, in condition order, each with an empty Sensitive list.
And for every listed object with a non-`True` condition such that no object listed later
with a non-`True` condition has the same key, exactly one emitted Result bears its key, and
that Result has this Kind, Name and Error list. -/
theorem C2_result_content (ord : RangeOrder) (a : Analyzer)
    (items : List HorizontalPodAutoscaler)
    (hfetch : a.Client.listHpa a.Namespace = Except.ok items) :
    (∀ r ∈ (HpaAnalyzer.Analyze ord a).results.drop a.Results.length,
      ∃ hpa ∈ items, (∃ c ∈ hpa.Status.Conditions, c.Status ≠ "True")
        ∧ r.Kind = "HorizontalPodAutoscaler"
        ∧ r.Name = hpa.ObjectMeta.Namespace ++ "/" ++ hpa.ObjectMeta.Name
        ∧ r.Error = (hpa.Status.Conditions.filter (fun c => c.Status != "True")).map
            (fun c => ⟨c.Message, []⟩))
    ∧ (∀ pre hpa post, items = pre ++ hpa :: post →
        (∃ c ∈ hpa.Status.Conditions, c.Status ≠ "True") →
        (∀ o ∈ post, (∃ c ∈ o.Status.Conditions, c.Status ≠ "True") →
          o.ObjectMeta.Namespace ++ "/" ++ o.ObjectMeta.Name
            ≠ hpa.ObjectMeta.Namespace ++ "/" ++ hpa.ObjectMeta.Name) →
        ∃ r ∈ (HpaAnalyzer.Analyze ord a).results.drop a.Results.length,
          r.Kind = "HorizontalPodAutoscaler"
          ∧ r.Name = hpa.ObjectMeta.Namespace ++ "/" ++ hpa.ObjectMeta.Name
          ∧ r.Error = (hpa.Status.Conditions.filter (fun c => c.Status != "True")).map
              (fun c => ⟨c.Message, []⟩)
          ∧ ∀ r2 ∈ (HpaAnalyzer.Analyze ord a).results.drop a.Results.length,
              r2.Name = hpa.ObjectMeta.Namespace ++ "/" ++ hpa.ObjectMeta.Name → r2 = r) := by
  rw [hpaAnalyze_ok ord a items hfetch]
  simp only [List.drop_left]
  constructor
  · intro r hr
    obtain ⟨e, he, rfl⟩ := List.mem_map.mp hr
    obtain ⟨hpa, hm, hf, rfl⟩ := mem_hpaBuckets items e (((ord.perm _).mem_iff).mp he)
    exact ⟨hpa, hm, (hasFailure_iff_exists hpa).mp hf, rfl, rfl, rfl⟩
  · intro pre hpa post hsplit hex hpost
    have hf := (hasFailure_iff_exists hpa).mpr hex
    have hmem := last_hpa_mem_buckets pre post hpa hf
      (fun o ho hfo => hpost o ho ((hasFailure_iff_exists o).mp hfo))
    rw [← hsplit] at hmem
    refine ⟨hpaResult a.Client _,
      List.mem_map_of_mem _ (((ord.perm _).mem_iff).mpr hmem), rfl, rfl, rfl, ?_⟩
    intro r2 hr2 hname
    obtain ⟨e, he, rfl⟩ := List.mem_map.mp hr2
    have he2 := ((ord.perm _).mem_iff).mp he
    have : e = (identityKey hpa, (⟨hpa, expectedFailures hpa⟩ : PreAnalysis)) :=
      entry_unique _ (nodup_hpaBuckets items) _ _ he2 hmem hname
    rw [this]

/-- Witness of the amended C2: an object with statuses `False`, `True`, `Unknown` and empty
yields the messages of the three conditions that are not `True`. -/
theorem C2_result_content_witness :
    ∃ r ∈ (HpaAnalyzer.Analyze insertionOrder (analyzerOf [mixedHpa])).results.drop
        (analyzerOf [mixedHpa]).Results.length,
      r.Kind = "HorizontalPodAutoscaler" ∧ r.Name = "default" ++ "/" ++ "web"
      ∧ r.Error = [⟨"A", []⟩, ⟨"B", []⟩, ⟨"C", []⟩] := by
  obtain ⟨r, hr, h1, h2, h3, _⟩ :=
    (C2_result_content insertionOrder (analyzerOf [mixedHpa]) [mixedHpa] rfl).2
      [] mixedHpa [] rfl (by decide) (by simp)
  exact ⟨r, hr, h1, h2, h3⟩

/-- Counterexample to C5: two listed autoscalers with the same namespace and name, each with
one failing condition. The single Result holds only the finding of the later object, and its
parent is resolved from the later object. -/
theorem C5_counterexample :
    hasFailure earlierHpa = true ∧ hasFailure laterHpa = true
    ∧ identityKey earlierHpa = identityKey laterHpa
    ∧ (HpaAnalyzer.Analyze insertionOrder (analyzerOf [earlierHpa, laterHpa])).results
        = [⟨"HorizontalPodAutoscaler", "default/web", [⟨"later is failing", []⟩],
            "Deployment/later-owner"⟩]
    ∧ ¬ ∃ r ∈ (HpaAnalyzer.Analyze insertionOrder (analyzerOf [earlierHpa, laterHpa])).results,
        r.Error = expectedFailures earlierHpa ++ expectedFailures laterHpa := by
  decide

/-- C5 as amended: an assignment under a key that already has a bucket replaces the bucket.
When a listed object with findings has the key of an earlier listed object and no later
listed object with findings has that key, the only Result under the key holds exactly the
findings of that object and its parent is resolved from the metadata of that object; the
same holds for the documents examined by the constraint analyzer. -/
theorem C5_last_writer_wins (ord : RangeOrder) (a : Analyzer)
    (items pre mid post : List HorizontalPodAutoscaler)
    (earlier later : HorizontalPodAutoscaler)
    (hfetch : a.Client.listHpa a.Namespace = Except.ok items)
    (hsplit : items = pre ++ earlier :: (mid ++ later :: post))
    (hlater : hasFailure later = true)
    (hkey : identityKey earlier = identityKey later)
    (hpost : ∀ o ∈ post, hasFailure o = true → identityKey o ≠ identityKey later)
    (sem : LoopVarSemantics) (m : DynamicClient)
    (dpre dmid dpost : List Unstructured) (dearlier dlater : Unstructured)
    (hex : examined sem m = dpre ++ dearlier :: (dmid ++ dlater :: dpost))
    (hdlater : hasViolation dlater = true)
    (hdkey : constraintKey dearlier = constraintKey dlater)
    (hdpost : ∀ e ∈ dpost, hasViolation e = true → constraintKey e ≠ constraintKey dlater) :
    (∃ r ∈ (HpaAnalyzer.Analyze ord a).results.drop a.Results.length,
      r.Name = identityKey earlier ∧ r.Error = expectedFailures later
      ∧ r.ParentObject
          = (if (a.Client.getParent later.ObjectMeta).2
             then (a.Client.getParent later.ObjectMeta).1 else "")
      ∧ ∀ r2 ∈ (HpaAnalyzer.Analyze ord a).results.drop a.Results.length,
          r2.Name = identityKey earlier → r2 = r)
    ∧ (∃ out, ConstraintAnalyzer.Analyze ord sem (some m) a = some out
      ∧ ∃ r ∈ out.results.drop a.Results.length,
        r.Name = constraintKey dearlier ∧ r.Error = violationFailures dlater
        ∧ ∀ r2 ∈ out.results.drop a.Results.length,
            r2.Name = constraintKey dearlier → r2 = r) := by
  constructor
  · rw [hpaAnalyze_ok ord a items hfetch]
    simp only [List.drop_left]
    have hmem := last_hpa_mem_buckets (pre ++ earlier :: mid) post later hlater hpost
    have hsplit2 : items = (pre ++ earlier :: mid) ++ later :: post := by
      rw [hsplit]; simp
    rw [← hsplit2] at hmem
    refine ⟨hpaResult a.Client _,
      List.mem_map_of_mem _ (((ord.perm _).mem_iff).mpr hmem), hkey.symm, rfl, rfl, ?_⟩
    intro r2 hr2 hname
    obtain ⟨e, he, rfl⟩ := List.mem_map.mp hr2
    have he2 := ((ord.perm _).mem_iff).mp he
    have : e = (identityKey later, (⟨later, expectedFailures later⟩ : PreAnalysis)) :=
      entry_unique _ (nodup_hpaBuckets items) _ _ he2 hmem (by rw [← hkey]; exact hname)
    rw [this]
  · obtain ⟨logs, hout⟩ := constraintAnalyze_some ord sem m a
    refine ⟨_, hout, ?_⟩
    simp only [List.drop_left]
    have hmem := last_doc_mem_buckets (dpre ++ dearlier :: dmid) dpost dlater hdlater hdpost
    have hsplit2 : examined sem m = (dpre ++ dearlier :: dmid) ++ dlater :: dpost := by
      rw [hex]; simp
    rw [← hsplit2] at hmem
    refine ⟨constraintResult _,
      List.mem_map_of_mem _ (((ord.perm _).mem_iff).mpr hmem), hdkey.symm, rfl, ?_⟩
    intro r2 hr2 hname
    obtain ⟨e, he, rfl⟩ := List.mem_map.mp hr2
    have he2 := ((ord.perm _).mem_iff).mp he
    have : e = (constraintKey dlater, (⟨zeroHpa, violationFailures dlater⟩ : PreAnalysis)) :=
      entry_unique _ (nodup_constraintBuckets _) _ _ he2 hmem
        (by rw [← hdkey]; exact hname)
    rw [this]

/-- Witness of the amended C5 on the two autoscalers and the two documents that share a
key. -/
theorem C5_last_writer_wins_witness :
    (∃ r ∈ (HpaAnalyzer.Analyze insertionOrder
          (analyzerOf [earlierHpa, laterHpa])).results.drop 0,
      r.Name = identityKey earlierHpa ∧ r.Error = expectedFailures laterHpa
      ∧ r.ParentObject
          = (if (ownerResolver laterHpa.ObjectMeta).2
             then (ownerResolver laterHpa.ObjectMeta).1 else "")
      ∧ ∀ r2 ∈ (HpaAnalyzer.Analyze insertionOrder
            (analyzerOf [earlierHpa, laterHpa])).results.drop 0,
          r2.Name = identityKey earlierHpa → r2 = r)
    ∧ (∃ out, ConstraintAnalyzer.Analyze insertionOrder LoopVarSemantics.perIteration
          (some sameKeyClient) (analyzerOf [earlierHpa, laterHpa]) = some out
      ∧ ∃ r ∈ out.results.drop 0,
        r.Name = constraintKey sameKeyFirst ∧ r.Error = violationFailures sameKeySecond
        ∧ ∀ r2 ∈ out.results.drop 0, r2.Name = constraintKey sameKeyFirst → r2 = r) :=
  C5_last_writer_wins insertionOrder (analyzerOf [earlierHpa, laterHpa])
    [earlierHpa, laterHpa] [] [] [] earlierHpa laterHpa rfl rfl (by decide) (by decide)
    (by simp) LoopVarSemantics.perIteration sameKeyClient [] [] [] sameKeyFirst sameKeySecond
    rfl (by decide) (by decide) (by simp)


/-! ## Claims about `ConstraintAnalyzer.Analyze` -/

theorem hasViolation_of_ne_nil (d : Unstructured) (h : violationFailures d ≠ []) :
    hasViolation d = true := by
  unfold hasViolation
  simpa [List.length_pos] using h

theorem hasViolation_of_nil (d : Unstructured) (h : violationFailures d = []) :
    hasViolation d = false := by
  unfold hasViolation
  simp [h]

theorem key_mem_constraintBuckets (docs : List Unstructured) (d : Unstructured)
    (hm : d ∈ docs) (hv : hasViolation d = true) :
    constraintKey d ∈ mapKeys (constraintBuckets docs) := by
  unfold constraintBuckets
  rw [mem_mapKeys_mapAssignAll]
  right
  exact List.mem_map.mpr ⟨_, (mem_constraintWrites docs _).mpr ⟨d, hm, hv, rfl⟩, rfl⟩

theorem forall2_record_messages (elems : List JSON) (msgs : List String)
    (hrec : List.Forall₂
      (fun j s => ∃ fields k, j = JSON.obj fields
        ∧ fields.lookup "kind" = some (JSON.str k)
        ∧ fields.lookup "message" = some (JSON.str s)
        ∧ ∀ key v, fields.lookup key = some v → foldMatches "message" key = true →
            key = "message") elems msgs) :
    elems.map (fun j => (⟨(decodeViolation zeroViolation j).Message, []⟩ : Failure))
      = msgs.map (fun s => ⟨s, []⟩) := by
  induction hrec with
  | nil => rfl
  | @cons j s _ _ h _ ih =>
    obtain ⟨fields, k, rfl, _, hmsg, honly⟩ := h
    simp only [List.map_cons, ih, decodeViolation_message zeroViolation fields s hmsg honly]

/-- The findings of a document whose status map holds a list under `violations`, its only key
matching `violations`. -/
theorem violationFailures_list (release : Unstructured)
    (statusFields : List (String × JSON)) (elems : List JSON)
    (hs : release.Object.lookup "status" = some (JSON.obj statusFields))
    (hv : statusFields.lookup "violations" = some (JSON.arr elems))
    (honly : ∀ key v, statusFields.lookup key = some v →
      foldMatches "violations" key = true → key = "violations") :
    violationFailures release
      = elems.map (fun j => ⟨(decodeViolation zeroViolation j).Message, []⟩) := by
  rw [violationFailures_map release statusFields hs,
    decodeStatus_list statusFields elems hv honly, List.map_map]
  rfl

/-- Counterexample to C3, in three parts. First, two templates each list one document of kind
`K8sRequiredLabels` and name `must-have-owner`, with well-formed violations `first` and
`second`: under either loop-variable semantics the pass returns one Result, holding `second`,
and no Result holds the message of the first document. Second, the only listed document has
one record with kind `Namespace` and message `real`, and a further key, `message` spelled
with a long s, holding `ghost`: the Result holds `ghost`, not the violation message. Third,
the status of the only listed document holds one well-formed record under `violations` and
an empty list under `violations` spelled with a long s: no Result is returned. -/
theorem C3_counterexample :
    examined LoopVarSemantics.perIteration sameKeyClient = [sameKeyFirst, sameKeySecond]
    ∧ examined LoopVarSemantics.perLoop sameKeyClient = [sameKeyFirst, sameKeySecond]
    ∧ sameKeyFirst.Object.lookup "status"
        = some (JSON.obj [("violations", JSON.arr [violationRecord "Namespace" "first"])])
    ∧ ConstraintAnalyzer.Analyze insertionOrder LoopVarSemantics.perIteration
          (some sameKeyClient) emptyAnalyzer
        = some ⟨[⟨"GatekeeperConstraint", "K8sRequiredLabels/must-have-owner",
            [⟨"second", []⟩], ""⟩], none, []⟩
    ∧ ConstraintAnalyzer.Analyze insertionOrder LoopVarSemantics.perLoop
          (some sameKeyClient) emptyAnalyzer
        = some ⟨[⟨"GatekeeperConstraint", "K8sRequiredLabels/must-have-owner",
            [⟨"second", []⟩], ""⟩], none, []⟩
    ∧ examined LoopVarSemantics.perIteration ghostClient = [ghostDoc]
    ∧ examined LoopVarSemantics.perLoop ghostClient = [ghostDoc]
    ∧ (∃ fields, ghostDoc.Object.lookup "status"
          = some (JSON.obj [("violations", JSON.arr [JSON.obj fields])])
        ∧ fields.lookup "kind" = some (JSON.str "Namespace")
        ∧ fields.lookup "message" = some (JSON.str "real"))
    ∧ ConstraintAnalyzer.Analyze insertionOrder LoopVarSemantics.perIteration
          (some ghostClient) emptyAnalyzer
        = some ⟨[⟨"GatekeeperConstraint", "K8sRequiredLabels/ghost-key",
            [⟨"ghost", []⟩], ""⟩], none, []⟩
    ∧ ConstraintAnalyzer.Analyze insertionOrder LoopVarSemantics.perLoop
          (some ghostClient) emptyAnalyzer
        = some ⟨[⟨"GatekeeperConstraint", "K8sRequiredLabels/ghost-key",
            [⟨"ghost", []⟩], ""⟩], none, []⟩
    ∧ examined LoopVarSemantics.perIteration lateKeyClient = [lateKeyDoc]
    ∧ examined LoopVarSemantics.perLoop lateKeyClient = [lateKeyDoc]
    ∧ (∃ fields, lateKeyDoc.Object.lookup "status" = some (JSON.obj fields)
        ∧ fields.lookup "violations"
            = some (JSON.arr [violationRecord "Namespace" "real"]))
    ∧ ConstraintAnalyzer.Analyze insertionOrder LoopVarSemantics.perIteration
          (some lateKeyClient) emptyAnalyzer = some ⟨[], none, []⟩
    ∧ ConstraintAnalyzer.Analyze insertionOrder LoopVarSemantics.perLoop
          (some lateKeyClient) emptyAnalyzer = some ⟨[], none, []⟩ :=
  ⟨rfl, rfl, rfl, by decide, by decide, rfl, rfl, ⟨_, rfl, rfl, rfl⟩, by decide, by decide,
    rfl, rfl, ⟨_, rfl, rfl⟩, by decide, by decide⟩

/-- C3 as amended: let `d`, of kind `K` and name `N`, be a document examined by the inner
loop of `Analyze`, with no prior Results. Suppose its status is a map whose violations entry
is a non-empty list of records with string kind and message, where `violations` is the only
key of the status map that matches `violations` up to case folding and `message` is the only
key of each record that matches `message` up to case folding. Then `Analyze` returns with a
nil error, exactly one Result is named `K/N`, its Kind is `GatekeeperConstraint`, and,
provided no document examined later yields a finding under the same key, that Result is the
one with the violation messages of `d` in order, each with empty Sensitive. If the status of
`d` is absent, the Results are those of a pass examining the same documents without `d`, and
no Result is named `K/N` unless another examined document yields a finding under that key. -/
theorem C3_constraint_result (ord : RangeOrder) (sem : LoopVarSemantics) (m : DynamicClient)
    (a : Analyzer) (pre post : List Unstructured) (d : Unstructured)
    (hprior : a.Results = []) (hex : examined sem m = pre ++ d :: post) :
    (∀ statusFields elems msgs,
      d.Object.lookup "status" = some (JSON.obj statusFields) →
      statusFields.lookup "violations" = some (JSON.arr elems) →
      (∀ key v, statusFields.lookup key = some v → foldMatches "violations" key = true →
        key = "violations") →
      List.Forall₂
        (fun j s => ∃ fields k, j = JSON.obj fields
          ∧ fields.lookup "kind" = some (JSON.str k)
          ∧ fields.lookup "message" = some (JSON.str s)
          ∧ ∀ key v, fields.lookup key = some v → foldMatches "message" key = true →
              key = "message") elems msgs →
      msgs ≠ [] →
      ∃ out, ConstraintAnalyzer.Analyze ord sem (some m) a = some out ∧ out.err = none
        ∧ (out.results.map Result.Name).count (GetKind d ++ "/" ++ GetName d) = 1
        ∧ (∀ r ∈ out.results, r.Name = GetKind d ++ "/" ++ GetName d →
            r.Kind = "GatekeeperConstraint")
        ∧ ((∀ e ∈ post, hasViolation e = true → constraintKey e ≠ constraintKey d) →
            (⟨"GatekeeperConstraint", GetKind d ++ "/" ++ GetName d,
              msgs.map (fun s => ⟨s, []⟩), ""⟩ : Result) ∈ out.results))
    ∧ (d.Object.lookup "status" = none →
        (∀ m2, examined sem m2 = pre ++ post →
          (ConstraintAnalyzer.Analyze ord sem (some m) a).map ConstraintOutcome.results
            = (ConstraintAnalyzer.Analyze ord sem (some m2) a).map ConstraintOutcome.results)
        ∧ ((∀ e ∈ pre ++ post, hasViolation e = true → constraintKey e ≠ constraintKey d) →
            ∃ out, ConstraintAnalyzer.Analyze ord sem (some m) a = some out
              ∧ ∀ r ∈ out.results, r.Name ≠ GetKind d ++ "/" ++ GetName d)) := by
  obtain ⟨logs, hout⟩ := constraintAnalyze_some ord sem m a
  rw [hprior, List.nil_append] at hout
  have hperm := ord.perm (constraintBuckets (examined sem m))
  constructor
  · intro statusFields elems msgs hs hv honly hrec hne
    have hvf : violationFailures d = msgs.map (fun s => ⟨s, []⟩) := by
      rw [violationFailures_list d statusFields elems hs hv honly]
      exact forall2_record_messages elems msgs hrec
    have hhas : hasViolation d = true := by
      apply hasViolation_of_ne_nil
      rw [hvf]
      simpa using hne
    have hmem : d ∈ examined sem m := by rw [hex]; simp
    refine ⟨_, hout, rfl, ?_, ?_, ?_⟩
    · rw [constraintResult_name]
      have hp : (mapKeys (ord.pick (constraintBuckets (examined sem m)))).Perm
          (mapKeys (constraintBuckets (examined sem m))) := hperm.map Prod.fst
      rw [hp.count_eq]
      exact List.count_eq_one_of_mem (nodup_constraintBuckets _)
        (key_mem_constraintBuckets _ d hmem hhas)
    · intro r hr _
      obtain ⟨e, _, rfl⟩ := List.mem_map.mp hr
      rfl
    · intro hpost
      have hb := last_doc_mem_buckets pre post d hhas hpost
      rw [← hex] at hb
      have := List.mem_map_of_mem constraintResult ((hperm.mem_iff).mpr hb)
      simpa [constraintResult, constraintKey, constraintKind, hvf] using this
  · intro hs
    have hvf : violationFailures d = [] := violationFailures_absent d hs
    have hhas := hasViolation_of_nil d hvf
    constructor
    · intro m2 hex2
      rw [constraintAnalyze_results, constraintAnalyze_results, hex, hex2,
        constraintBuckets_skip pre post d hhas]
    · intro hothers
      refine ⟨_, hout, ?_⟩
      intro r hr hname
      obtain ⟨e, he, rfl⟩ := List.mem_map.mp hr
      obtain ⟨x, hx, hxv, rfl⟩ := mem_constraintBuckets _ e ((hperm.mem_iff).mp he)
      rw [hex] at hx
      rcases List.mem_append.mp hx with hx | hx
      · exact hothers x (List.mem_append_left _ hx) hxv hname
      · rcases List.mem_cons.mp hx with hx | hx
        · rw [hx, hhas] at hxv
          exact Bool.noConfusion hxv
        · exact hothers x (List.mem_append_right _ hx) hxv hname

/-- Witness of the amended C3: the first of two failing constraints of one template, read
with a fresh loop variable per iteration, and a document without status listed before a
failing constraint. -/
theorem C3_constraint_result_witness :
    (∃ out, ConstraintAnalyzer.Analyze insertionOrder LoopVarSemantics.perIteration
        (some labelsClient) emptyAnalyzer = some out ∧ out.err = none
      ∧ (out.results.map Result.Name).count
          (GetKind labelsFirst ++ "/" ++ GetName labelsFirst) = 1
      ∧ (⟨"GatekeeperConstraint", GetKind labelsFirst ++ "/" ++ GetName labelsFirst,
          ["missing label owner"].map (fun s => ⟨s, []⟩), ""⟩ : Result) ∈ out.results)
    ∧ (ConstraintAnalyzer.Analyze insertionOrder LoopVarSemantics.perIteration
          (some bareClient) emptyAnalyzer).map ConstraintOutcome.results
        = (ConstraintAnalyzer.Analyze insertionOrder LoopVarSemantics.perIteration
          (some secondOnlyClient) emptyAnalyzer).map ConstraintOutcome.results := by
  constructor
  · obtain ⟨out, h1, h2, h3, _, h5⟩ :=
      (C3_constraint_result insertionOrder LoopVarSemantics.perIteration labelsClient
        emptyAnalyzer [] [labelsSecond] labelsFirst rfl rfl).1
        [("violations", JSON.arr [violationRecord "Namespace" "missing label owner"])]
        [violationRecord "Namespace" "missing label owner"] ["missing label owner"] rfl rfl
        (by
          intro key v hl hm
          simp only [List.lookup_cons, List.lookup_nil] at hl
          by_cases hk : key = "violations"
          · exact hk
          · have hb : (key == "violations") = false := by simpa using hk
            simp [hb] at hl)
        (List.Forall₂.cons ⟨_, _, rfl, rfl, rfl, by
          intro key v hl hm
          simp only [List.lookup_cons, List.lookup_nil] at hl
          by_cases hk : key = "message"
          · exact hk
          · by_cases hk2 : key = "kind"
            · subst hk2
              exact absurd hm (by decide)
            · have hb : (key == "message") = false := by simpa using hk
              have hb2 : (key == "kind") = false := by simpa using hk2
              simp [hb, hb2] at hl⟩ List.Forall₂.nil) (by simp)
    exact ⟨out, h1, h2, h3, h5 (by decide)⟩
  · exact ((C3_constraint_result insertionOrder LoopVarSemantics.perIteration bareClient
      emptyAnalyzer [] [labelsSecond] (bareDoc "K8sRequiredLabels" "quiet") rfl rfl).2 rfl).1
      secondOnlyClient rfl

/-- Counterexample to C4, in two parts. First, the violations list of the only listed
document holds a string and a record whose message is a number: neither matches the expected
shape, yet each yields a finding with empty text, and the document gets a Result (under
either loop-variable semantics). Second, the status of the only listed document holds a
string under `violations`, which is not a list, and a list of one record under `Violations`:
the decoder takes both keys for the field, and the document gets a Result with the message
of that record. -/
theorem C4_counterexample :
    examined LoopVarSemantics.perIteration malformedClient = [malformedDoc]
    ∧ examined LoopVarSemantics.perLoop malformedClient = [malformedDoc]
    ∧ constraintFailures malformedDoc = [⟨"", []⟩, ⟨"", []⟩]
    ∧ ConstraintAnalyzer.Analyze insertionOrder LoopVarSemantics.perIteration
          (some malformedClient) emptyAnalyzer
        = some ⟨[⟨"GatekeeperConstraint", "K8sRequiredLabels/ns-must-have-gk",
            [⟨"", []⟩, ⟨"", []⟩], ""⟩], none, []⟩
    ∧ ConstraintAnalyzer.Analyze insertionOrder LoopVarSemantics.perLoop
          (some malformedClient) emptyAnalyzer
        = some ⟨[⟨"GatekeeperConstraint", "K8sRequiredLabels/ns-must-have-gk",
            [⟨"", []⟩, ⟨"", []⟩], ""⟩], none, []⟩
    ∧ examined LoopVarSemantics.perIteration variantClient = [variantDoc]
    ∧ examined LoopVarSemantics.perLoop variantClient = [variantDoc]
    ∧ (∃ fields, variantDoc.Object.lookup "status" = some (JSON.obj fields)
        ∧ fields.lookup "violations" = some (JSON.str "oops"))
    ∧ constraintFailures variantDoc = [⟨"bad", []⟩]
    ∧ ConstraintAnalyzer.Analyze insertionOrder LoopVarSemantics.perIteration
          (some variantClient) emptyAnalyzer
        = some ⟨[⟨"GatekeeperConstraint", "K8sRequiredLabels/variant-key",
            [⟨"bad", []⟩], ""⟩], none, []⟩
    ∧ ConstraintAnalyzer.Analyze insertionOrder LoopVarSemantics.perLoop
          (some variantClient) emptyAnalyzer
        = some ⟨[⟨"GatekeeperConstraint", "K8sRequiredLabels/variant-key",
            [⟨"bad", []⟩], ""⟩], none, []⟩ :=
  ⟨rfl, rfl, by decide, by decide, by decide, rfl, rfl, ⟨_, rfl, rfl⟩, by decide, by decide,
    by decide⟩

/-- C4 as amended: let `d`, of kind `K` and name `N`, be a document examined by the inner
loop of `Analyze`. (1) If its status is present but not a map, or is a map none of whose keys
matching `violations` up to case folding holds a list, the extraction yields no finding and
the Results are those of a pass examining the same documents without `d`. (2) If its status
is a map whose only key matching `violations` up to case folding is `violations` itself,
holding a list, the extraction yields one finding per list element, in order, each with empty
Sensitive: its text is empty for an element that is not a record and for a record none of
whose keys matching `message` holds a string, and is the message of a record whose only key
matching `message` is `message` itself, holding a string. When that list is not empty `d`
does get a Result: exactly one emitted Result is named `K/N`, its Kind is
`GatekeeperConstraint`, and its Error list is the findings of `d` provided no document
examined later yields a finding under the same key. (3) Whatever the shape, `Analyze` returns
with a nil error. -/
theorem C4_shape_mismatch (ord : RangeOrder) (sem : LoopVarSemantics) (m : DynamicClient)
    (a : Analyzer) (pre post : List Unstructured) (d : Unstructured)
    (hex : examined sem m = pre ++ d :: post) :
    (∀ st, d.Object.lookup "status" = some st →
      ((∀ fields, st ≠ JSON.obj fields)
        ∨ (∃ fields, st = JSON.obj fields
            ∧ ∀ key v, fields.lookup key = some v → foldMatches "violations" key = true →
                ∀ elems, v ≠ JSON.arr elems)) →
      constraintFailures d = []
      ∧ ∀ m2, examined sem m2 = pre ++ post →
          (ConstraintAnalyzer.Analyze ord sem (some m) a).map ConstraintOutcome.results
            = (ConstraintAnalyzer.Analyze ord sem (some m2) a).map ConstraintOutcome.results)
    ∧ (∀ fields elems, d.Object.lookup "status" = some (JSON.obj fields) →
        fields.lookup "violations" = some (JSON.arr elems) →
        (∀ key v, fields.lookup key = some v → foldMatches "violations" key = true →
          key = "violations") →
        List.Forall₂
          (fun (j : JSON) (f : Failure) =>
            f.Sensitive = []
            ∧ ((∀ record, j ≠ JSON.obj record) → f.Text = "")
            ∧ (∀ record, j = JSON.obj record →
                (∀ key v, record.lookup key = some v → foldMatches "message" key = true →
                  ∀ s, v ≠ JSON.str s) → f.Text = "")
            ∧ (∀ record s, j = JSON.obj record →
                record.lookup "message" = some (JSON.str s) →
                (∀ key v, record.lookup key = some v → foldMatches "message" key = true →
                  key = "message") → f.Text = s))
          elems (constraintFailures d)
        ∧ (elems ≠ [] →
            ∃ out, ConstraintAnalyzer.Analyze ord sem (some m) a = some out
              ∧ ∃ r ∈ out.results.drop a.Results.length,
                r.Kind = "GatekeeperConstraint"
                ∧ r.Name = GetKind d ++ "/" ++ GetName d
                ∧ (∀ r2 ∈ out.results.drop a.Results.length,
                    r2.Name = GetKind d ++ "/" ++ GetName d → r2 = r)
                ∧ ((∀ e ∈ post, hasViolation e = true → constraintKey e ≠ constraintKey d) →
                    r.Error = constraintFailures d)))
    ∧ (ConstraintAnalyzer.Analyze ord sem (some m) a).map ConstraintOutcome.err
        = some none := by
  refine ⟨?_, ?_, constraintAnalyze_err ord sem m a⟩
  · intro st hs hshape
    have hvf : violationFailures d = [] := by
      rcases hshape with hnot | ⟨fields, rfl, hnolist⟩
      · exact violationFailures_not_map d st hs hnot
      · rw [violationFailures_map d fields hs, decodeStatus_no_list fields hnolist]
        rfl
    refine ⟨by rw [constraintFailures_eq, hvf], ?_⟩
    intro m2 hex2
    rw [constraintAnalyze_results, constraintAnalyze_results, hex, hex2,
      constraintBuckets_skip pre post d (hasViolation_of_nil d hvf)]
  · intro fields elems hs hv honly
    have hvf := violationFailures_list d fields elems hs hv honly
    constructor
    · rw [constraintFailures_eq, hvf, List.forall₂_map_right_iff, List.forall₂_same]
      intro j _
      refine ⟨rfl, ?_, ?_, ?_⟩
      · intro hnot
        simp only [decodeViolation_not_obj zeroViolation j hnot]
        rfl
      · intro record hj hnostr
        subst hj
        simp only [decodeViolation_no_string zeroViolation record hnostr]
        rfl
      · intro record s hj hmsg honlym
        subst hj
        simp only [decodeViolation_message zeroViolation record s hmsg honlym]
    · intro hne
      obtain ⟨logs, hout⟩ := constraintAnalyze_some ord sem m a
      refine ⟨_, hout, ?_⟩
      simp only [List.drop_left]
      have hperm := ord.perm (constraintBuckets (examined sem m))
      have hhas : hasViolation d = true := by
        apply hasViolation_of_ne_nil
        rw [hvf]
        simpa using hne
      have hmem : d ∈ examined sem m := by rw [hex]; simp
      have hk := key_mem_constraintBuckets _ d hmem hhas
      simp only [mapKeys, List.mem_map] at hk
      obtain ⟨e, he, hke⟩ := hk
      refine ⟨constraintResult e, List.mem_map_of_mem _ ((hperm.mem_iff).mpr he), rfl, hke,
        ?_, ?_⟩
      · intro r2 hr2 hname
        obtain ⟨e2, he2, rfl⟩ := List.mem_map.mp hr2
        have : e2 = e := entry_unique _ (nodup_constraintBuckets _) _ _
          ((hperm.mem_iff).mp he2) he (by rw [hke]; exact hname)
        rw [this]
      · intro hpost
        have hb := last_doc_mem_buckets pre post d hhas hpost
        rw [← hex] at hb
        have : e = (constraintKey d, (⟨zeroHpa, violationFailures d⟩ : PreAnalysis)) :=
          entry_unique _ (nodup_constraintBuckets _) _ _ he hb hke
        rw [this, constraintFailures_eq]
        rfl

/-- Witness of the amended C4: a document whose status is a string, listed before a failing
constraint, changes nothing; the document whose violations list holds a string and a record
with a numeric message gets a Result with two findings of empty text. -/
theorem C4_shape_mismatch_witness :
    (constraintFailures stringStatusDoc = []
      ∧ (ConstraintAnalyzer.Analyze insertionOrder LoopVarSemantics.perIteration
            (some stringStatusClient) emptyAnalyzer).map ConstraintOutcome.results
          = (ConstraintAnalyzer.Analyze insertionOrder LoopVarSemantics.perIteration
            (some secondOnlyClient) emptyAnalyzer).map ConstraintOutcome.results)
    ∧ (∃ out, ConstraintAnalyzer.Analyze insertionOrder LoopVarSemantics.perLoop
          (some malformedClient) emptyAnalyzer = some out
        ∧ ∃ r ∈ out.results.drop emptyAnalyzer.Results.length,
          r.Kind = "GatekeeperConstraint"
          ∧ r.Name = GetKind malformedDoc ++ "/" ++ GetName malformedDoc
          ∧ r.Error = constraintFailures malformedDoc) := by
  constructor
  · have h := (C4_shape_mismatch insertionOrder LoopVarSemantics.perIteration
      stringStatusClient emptyAnalyzer [] [labelsSecond] stringStatusDoc rfl).1
      (JSON.str "oops") rfl (Or.inl (fun _ hne => JSON.noConfusion hne))
    exact ⟨h.1, h.2 secondOnlyClient rfl⟩
  · obtain ⟨out, h1, r, hr, h2, h3, _, h5⟩ :=
      ((C4_shape_mismatch insertionOrder LoopVarSemantics.perLoop malformedClient
        emptyAnalyzer [] [] malformedDoc rfl).2.1
        [("violations", JSON.arr [JSON.str "not a record",
          JSON.obj [("kind", JSON.str "Namespace"), ("message", JSON.num 42)]])]
        [JSON.str "not a record",
          JSON.obj [("kind", JSON.str "Namespace"), ("message", JSON.num 42)]] rfl rfl
        (by
          intro key v hl hm
          simp only [List.lookup_cons, List.lookup_nil] at hl
          by_cases hk : key = "violations"
          · exact hk
          · have hb : (key == "violations") = false := by simpa using hk
            simp [hb] at hl)).2 (by simp)
    exact ⟨out, h1, r, hr, h2, h3, h5 (by simp)⟩


/-! ## Not-found listings -/

theorem constraintlistDocs_congr (sem : LoopVarSemantics) (m m2 : DynamicClient)
    (template : String)
    (h : m2.list "constraints.gatekeeper.sh" "v1beta1" template
      = m.list "constraints.gatekeeper.sh" "v1beta1" template) :
    constraintlistDocs sem m2 template = constraintlistDocs sem m template := by
  unfold constraintlistDocs getConstraint
  rw [h]

/-- C7: on a not-found list error `getConstraint` returns no resources and a nil error, and
`getConstraintTemplateNameList` no names and a nil error; any other list error is returned
with no resources. So `Analyze` adds no Result when the template listing is not found, and a
template whose constraint kind is not found adds nothing: the Results are those of a pass
over the remaining templates; the error of `Analyze` is nil. -/
theorem C7_not_found (ord : RangeOrder) (sem : LoopVarSemantics) (m : DynamicClient)
    (a : Analyzer) :
    (∀ group version resource, m.list group version resource = ListOutcome.notFound →
      (getConstraint sem m group version resource).releases = []
      ∧ (getConstraint sem m group version resource).err = none
      ∧ (getConstraintTemplateNameList m group version resource).names = []
      ∧ (getConstraintTemplateNameList m group version resource).err = none)
    ∧ (∀ group version resource msg,
        m.list group version resource = ListOutcome.failure msg →
        (getConstraint sem m group version resource).releases = []
        ∧ (getConstraint sem m group version resource).err = some msg
        ∧ (getConstraintTemplateNameList m group version resource).names = []
        ∧ (getConstraintTemplateNameList m group version resource).err = some msg)
    ∧ (m.list "templates.gatekeeper.sh" "v1" "constrainttemplates" = ListOutcome.notFound →
        ConstraintAnalyzer.Analyze ord sem (some m) a = some ⟨a.Results, none, []⟩)
    ∧ (∀ n1 t n2, templateNames m = n1 ++ t :: n2 →
        m.list "constraints.gatekeeper.sh" "v1beta1" t = ListOutcome.notFound →
        (ConstraintAnalyzer.Analyze ord sem (some m) a).map ConstraintOutcome.err = some none
        ∧ ∀ m2, templateNames m2 = n1 ++ n2 →
            (∀ resource, m2.list "constraints.gatekeeper.sh" "v1beta1" resource
              = m.list "constraints.gatekeeper.sh" "v1beta1" resource) →
            (ConstraintAnalyzer.Analyze ord sem (some m) a).map ConstraintOutcome.results
              = (ConstraintAnalyzer.Analyze ord sem (some m2) a).map
                  ConstraintOutcome.results) := by
  refine ⟨?_, ?_, ?_, ?_⟩
  · intro group version resource h
    simp [getConstraint, getConstraintTemplateNameList, h]
  · intro group version resource msg h
    simp [getConstraint, getConstraintTemplateNameList, h]
  · intro h
    have hnil : ord.pick [] = [] := List.Perm.eq_nil (ord.perm [])
    simp only [ConstraintAnalyzer.Analyze, getConstraintTemplateNameList, h, List.foldl_nil,
      hnil]
  · intro n1 t n2 hnames hnf
    refine ⟨constraintAnalyze_err ord sem m a, ?_⟩
    intro m2 hnames2 hsame
    rw [constraintAnalyze_results, constraintAnalyze_results]
    have hdocs : constraintlistDocs sem m2 = constraintlistDocs sem m :=
      funext fun template => constraintlistDocs_congr sem m m2 template (hsame template)
    have hex : examined sem m = examined sem m2 := by
      unfold examined
      rw [hnames, hnames2, hdocs]
      simp only [List.flatMap_append, List.flatMap_cons,
        constraintlistDocs_notFound sem m t hnf, List.nil_append]
    rw [hex]

/-- Witness of C7: a client that answers not-found to every list call, and a client whose
first template names a constraint kind that is not found. -/
theorem C7_not_found_witness :
    ConstraintAnalyzer.Analyze insertionOrder LoopVarSemantics.perLoop (some notFoundClient)
        emptyAnalyzer = some ⟨[], none, []⟩
    ∧ (ConstraintAnalyzer.Analyze insertionOrder LoopVarSemantics.perLoop
          (some missingKindClient) emptyAnalyzer).map ConstraintOutcome.results
        = (ConstraintAnalyzer.Analyze insertionOrder LoopVarSemantics.perLoop
          (some secondOnlyClient) emptyAnalyzer).map ConstraintOutcome.results :=
  ⟨(C7_not_found insertionOrder LoopVarSemantics.perLoop notFoundClient emptyAnalyzer).2.2.1
      rfl,
    ((C7_not_found insertionOrder LoopVarSemantics.perLoop missingKindClient
      emptyAnalyzer).2.2.2 [] "gone" ["k8srequiredlabels"] rfl rfl).2
      secondOnlyClient rfl (fun _ => rfl)⟩

/-! ## The loop variable of `getConstraint` -/

/-- C10, the code at the failing input: one template lists two different failing constraints.
With one loop variable for the whole loop (Go before 1.22) both returned pointers refer to the
second item, the loop of `Analyze` examines the second item twice and the first never, and
one Result is returned. With a fresh variable per iteration (Go 1.22 and later) the entries
are the two items and two Results are returned. -/
theorem C10_shared_loop_variable :
    (getConstraint LoopVarSemantics.perLoop labelsClient "constraints.gatekeeper.sh" "v1beta1"
        "k8srequiredlabels").releases = [0, 0]
    ∧ constraintlistDocs LoopVarSemantics.perLoop labelsClient "k8srequiredlabels"
        = [labelsSecond, labelsSecond]
    ∧ ConstraintAnalyzer.Analyze insertionOrder LoopVarSemantics.perLoop (some labelsClient)
          emptyAnalyzer
        = some ⟨[⟨"GatekeeperConstraint", "K8sRequiredLabels/pod-must-have-team",
            [⟨"missing label team", []⟩], ""⟩], none, []⟩
    ∧ constraintlistDocs LoopVarSemantics.perIteration labelsClient "k8srequiredlabels"
        = [labelsFirst, labelsSecond]
    ∧ ConstraintAnalyzer.Analyze insertionOrder LoopVarSemantics.perIteration
          (some labelsClient) emptyAnalyzer
        = some ⟨[⟨"GatekeeperConstraint", "K8sRequiredLabels/ns-must-have-owner",
              [⟨"missing label owner", []⟩], ""⟩,
            ⟨"GatekeeperConstraint", "K8sRequiredLabels/pod-must-have-team",
              [⟨"missing label team", []⟩], ""⟩], none, []⟩ :=
  ⟨by decide, rfl, by decide, rfl, by decide⟩


/-! ## Witnesses on the objects of the repository tests -/

/-- Witness of C1 on the three objects of `TestHpaAnalyzer_AnalyzeMultipleFailures`: nil
error, one Result under the key of the first object, as many Results as failing objects. -/
theorem C1_one_result_per_failing_object_witness :
    (HpaAnalyzer.Analyze insertionOrder (analyzerOf [testHpa1, testHpa2, testHpa3])).err = none
    ∧ ((HpaAnalyzer.Analyze insertionOrder
          (analyzerOf [testHpa1, testHpa2, testHpa3])).results.map Result.Name).count
        (testHpa1.ObjectMeta.Namespace ++ "/" ++ testHpa1.ObjectMeta.Name) = 1
    ∧ (HpaAnalyzer.Analyze insertionOrder
          (analyzerOf [testHpa1, testHpa2, testHpa3])).results.length
        = ([testHpa1, testHpa2, testHpa3].filter hasFailure).length :=
  have h := C1_one_result_per_failing_object insertionOrder
    (analyzerOf [testHpa1, testHpa2, testHpa3]) [testHpa1, testHpa2, testHpa3] rfl rfl
    (by decide) (by decide)
  ⟨h.1, (h.2.1 testHpa1 (by simp) (by decide)).1, h.2.2.2⟩

/-- Witness of C6 on a list that repeats an object and holds two objects with one key. -/
theorem C6_distinct_names_and_bound_witness :
    ((HpaAnalyzer.Analyze reverseOrder
        (analyzerOf [earlierHpa, laterHpa, earlierHpa])).results.map Result.Name).Nodup
    ∧ (HpaAnalyzer.Analyze reverseOrder
          (analyzerOf [earlierHpa, laterHpa, earlierHpa])).results.length
        ≤ ((([earlierHpa, laterHpa, earlierHpa].filter hasFailure).map
            (fun hpa => (hpa.ObjectMeta.Namespace, hpa.ObjectMeta.Name))).dedup).length
    ∧ (HpaAnalyzer.Analyze reverseOrder
          (analyzerOf [earlierHpa, laterHpa, earlierHpa])).results.length
        ≤ (([earlierHpa, laterHpa, earlierHpa].filter hasFailure).dedup).length :=
  C6_distinct_names_and_bound reverseOrder (analyzerOf [earlierHpa, laterHpa, earlierHpa])
    [earlierHpa, laterHpa, earlierHpa] rfl rfl

/-- Witness of C8 on the three objects of `TestHpaAnalyzer_AnalyzeMultipleFailures`: the
second object, which has an owner, has a Result. -/
theorem C8_parent_resolution_witness :
    ∃ r ∈ (HpaAnalyzer.Analyze insertionOrder
        (analyzerOf [testHpa1, testHpa2, testHpa3])).results.drop
          (analyzerOf [testHpa1, testHpa2, testHpa3]).Results.length,
      r.Name = identityKey testHpa2 :=
  (C8_parent_resolution insertionOrder (analyzerOf [testHpa1, testHpa2, testHpa3])
    [testHpa1, testHpa2, testHpa3] rfl).2.2 testHpa2 (by simp) (by decide)


/-! ## The repository tests, replayed on the embedding -/

/-- The test `TestHpaAnalyzer_AnalyzeNoFailures`: one healthy object, no Result. -/
theorem test_AnalyzeNoFailures :
    (HpaAnalyzer.Analyze insertionOrder
      (analyzerOf [⟨⟨"example-hpa", "default", []⟩,
        ⟨[⟨"AbleToScale", "True", "", ""⟩]⟩⟩])).results.length = 0 := by
  decide

/-- The test `TestHpaAnalyzer_AnalyzeWithFailures`: one failing object, one Result. -/
theorem test_AnalyzeWithFailures :
    (HpaAnalyzer.Analyze insertionOrder
      (analyzerOf [⟨⟨"example-hpa", "default", []⟩,
        ⟨[⟨"ScalingActive", "False", "", "HPA scaling is not active"⟩]⟩⟩])).results
      = [⟨"HorizontalPodAutoscaler", "default/example-hpa",
          [⟨"HPA scaling is not active", []⟩], ""⟩] := by
  decide

/-- The test `TestHpaAnalyzer_AnalyzeMultipleFailures`: two failing objects and a healthy
one, two Results. -/
theorem test_AnalyzeMultipleFailures :
    (HpaAnalyzer.Analyze insertionOrder
      (analyzerOf [testHpa1, testHpa2, testHpa3])).results.length = 2 := by
  decide

end K8sgpt
